import Mathlib

/-!
Reply converters of `go/internal/converters.go`.

A shallow embedding of the reply-normalisation functions of the Go client and the
properties proved about them.

* A Go value of static type `any` coming from the protocol engine is a `Reply`.
* A Go `map[string]V` is an association list; the order of the list is the order in
  which one particular `range` loop happens to visit the entries (Go fixes no order),
  and a well-formed map has pairwise distinct keys.
* A Go call returning `(any, error)` is a `GoRet`: either the returned pair or a
  run-time abort (failed single-value type assertion, index out of range).
* `float64` is the IEEE 754 binary64 bit pattern, compared the way Go compares it.
-/

namespace Glide

/-! ## Primitive Go data -/

/-- The kinds of `reflect.Kind`, in the order of the Go declaration. -/
inductive Kind
  | invalid | bool | int | int8 | int16 | int32 | int64
  | uint | uint8 | uint16 | uint32 | uint64 | uintptr
  | float32 | float64 | complex64 | complex128
  | array | chan | func | interface | map | pointer | slice | string | struct | unsafePointer
  deriving DecidableEq, Repr

/-- The dynamic types a reply value can have, as `reflect.TypeOf` and the `%T` verb report
them: `bool`, `int64`, `float64`, `string`, `[]interface {}`, `map[string]interface {}`,
`*errors.errorString`, `map[string]struct {}` and `[]string`; `emptyInterface` is the
static type `interface {}`, which `GetType[any]()` reports and no value has. -/
inductive GoType
  | bool | int64 | float64 | string | sliceAny | mapStringAny | errorString
  | mapStringStruct | sliceString | emptyInterface
  deriving DecidableEq, Repr

/-- The method `reflect.Type.Kind` on the dynamic types above. -/
def GoType.Kind : GoType → Kind
  | .bool => .bool
  | .int64 => .int64
  | .float64 => .float64
  | .string => .string
  | .sliceAny => .slice
  | .mapStringAny => .map
  | .errorString => .pointer
  | .mapStringStruct => .map
  | .sliceString => .slice
  | .emptyInterface => .interface

/-- A `float64`: sign bit, 11-bit biased exponent, 52-bit fraction. -/
structure F64 where
  sign : Bool
  exp : Fin 2048
  frac : Fin 4503599627370496
  deriving DecidableEq

namespace F64

/-- A value is NaN when the exponent is all ones and the fraction is not zero. -/
def isNaN (x : F64) : Bool := x.exp.val == 2047 && x.frac.val != 0

/-- Position of a non-NaN value on the number line: the magnitude bits read as an
integer are monotone in the magnitude, and both zeros land on `0`. -/
def key (x : F64) : Int :=
  if x.sign then -((x.exp.val * 4503599627370496 + x.frac.val : Nat) : Int)
  else ((x.exp.val * 4503599627370496 + x.frac.val : Nat) : Int)

/-- Go `x < y` on `float64`: false as soon as one operand is NaN. -/
def lt (x y : F64) : Bool := !x.isNaN && !y.isNaN && decide (x.key < y.key)

/-- Go `x > y` on `float64`. -/
def gt (x y : F64) : Bool := lt y x

/-- Go `x == y` on `float64`: false as soon as one operand is NaN, true on `-0 == +0`. -/
def eq (x y : F64) : Bool := !x.isNaN && !y.isNaN && decide (x.key = y.key)

/-- The value `1.0`. -/
def one : F64 := ⟨false, 1023, 0⟩

/-- The value `2.0`. -/
def two : F64 := ⟨false, 1024, 0⟩

/-- A quiet NaN. -/
def nan : F64 := ⟨false, 2047, 2251799813685248⟩

/-- The value `+0.0`, the zero value of a `float64` field. -/
def zero : F64 := ⟨false, 0, 0⟩

end F64

/-- A decoded reply tree (`any` in the source): `nil`, `bool`, `int64`, `float64`,
`string`, `[]any`, `map[string]any` or the server-error sentinel created by
`errors.New`; the source also asserts the dynamic types `map[string]struct{}` (line 404)
and `[]string` (line 476), which are `set` and `strs`. -/
inductive Reply
  | nil
  | bool (b : Bool)
  | int64 (i : Int)
  | float64 (f : F64)
  | str (s : String)
  | arr (xs : List Reply)
  | map (kvs : List (String × Reply))
  | error (msg : String)
  | set (keys : List String)
  | strs (xs : List String)

/-- The dynamic type `reflect.TypeOf(data)` of a non-nil reply; `none` for `nil`. -/
def Reply.goType : Reply → Option GoType
  | .nil => none
  | .bool _ => some .bool
  | .int64 _ => some .int64
  | .float64 _ => some .float64
  | .str _ => some .string
  | .arr _ => some .sliceAny
  | .map _ => some .mapStringAny
  | .error _ => some .errorString
  | .set _ => some .mapStringStruct
  | .strs _ => some .sliceString

/-- The errors built in the source with `fmt.Errorf`, kept as format plus arguments. -/
inductive GoError
  /-- Format `"unexpected type: %T, expected: %v"` of `ConvertArrayOfNilOr`. -/
  | unexpectedType (got : GoType) (expected : GoType)
  /-- Format `"unexpected response array length: %d"`. -/
  | arrayLength (len : Nat)
  /-- Format `"unexpected return type from Glide: got nil, expected %v"`. -/
  | gotNil (expected : Kind)
  /-- Format `"unexpected return type from Glide: got %v, expected %v"`. -/
  | gotType (got : GoType) (expected : Kind)
  /-- TypeMismatch of the generic converters: observed and expected type. -/
  | typeMismatch (observed : GoType) (expected : GoType)
  /-- UnexpectedNil of the generic converters. -/
  | unexpectedNil (expected : GoType)
  /-- Any other error value, for instance one made by a caller-supplied converter. -/
  | other (msg : String)
  /-- Format `"unexpected type received: %T"` of `ConvertXClaimResponse`; `none` prints
  `<nil>`. -/
  | typeReceived (got : Option GoType)
  /-- The library error `strconv.NumError` with `Err = ErrSyntax` for the text `num`. -/
  | parseSyntax (num : String)
  /-- The library error `strconv.NumError` with `Err = ErrRange` for the text `num`. -/
  | parseRange (num : String)
  deriving DecidableEq, Repr

/-- Outcome of a Go call of result type `(any, error)`: the returned pair, where `none`
in the first component is the `nil` interface value and `none` in the second is the
`nil` error, or a run-time abort. -/
inductive GoRet (α : Type)
  | ret (val : Option α) (err : Option GoError)
  | abort
  deriving DecidableEq

/-- Re-tag the value of an outcome. -/
def GoRet.map {α β : Type} (f : α → β) : GoRet α → GoRet β
  | .ret v e => .ret (v.map f) e
  | .abort => .abort

/-- A concrete element type `T` of a generic converter: `GetType[T]()` and the type
assertion `value.(T)`. -/
class GoElem (T : Type) where
  /-- The result of `GetType[T]()`. -/
  goType : GoType
  /-- The two-value type assertion `v, ok := value.(T)`; `none` when `ok` is false. -/
  assert : Reply → Option T
  /-- A `T` stored in an `any`. -/
  box : T → Reply

instance : GoElem Bool where
  goType := .bool
  assert := fun r => match r with | .bool b => some b | _ => none
  box := .bool

instance : GoElem Int where
  goType := .int64
  assert := fun r => match r with | .int64 i => some i | _ => none
  box := .int64

instance : GoElem F64 where
  goType := .float64
  assert := fun r => match r with | .float64 f => some f | _ => none
  box := .float64

instance : GoElem String where
  goType := .string
  assert := fun r => match r with | .str s => some s | _ => none
  box := .str

/-- The element type `[]any`. -/
instance : GoElem (List Reply) where
  goType := .sliceAny
  assert := fun r => match r with | .arr xs => some xs | _ => none
  box := .arr

/-- The element type `map[string]any`. -/
instance : GoElem (List (String × Reply)) where
  goType := .mapStringAny
  assert := fun r => match r with | .map kvs => some kvs | _ => none
  box := .map

/-- The element type `any`: the assertion `value.(any)` holds of every value but the
`nil` interface. -/
instance : GoElem Reply where
  goType := .emptyInterface
  assert := fun r => match r with | .nil => none | r => some r
  box := fun r => r

/-- Go `a < b` on strings: lexicographic on the bytes, which on the UTF-8 encoding is the
lexicographic order of the characters. The instance is the structural one on character
lists, so that the comparison evaluates by computation. -/
def strLess (a b : String) : Bool := decide (a.data < b.data)

/-- The assertion `value.(T)` recovers a boxed `T`, a boxed `T` is never the `nil`
interface, and the assertion succeeds on nothing else. -/
class LawfulGoElem (T : Type) [GoElem T] : Prop where
  assert_box : ∀ v : T, GoElem.assert (GoElem.box v) = some v
  box_ne_nil : ∀ v : T, GoElem.box v ≠ Reply.nil
  box_of_assert : ∀ (r : Reply) (v : T), GoElem.assert r = some v → r = GoElem.box v

instance : LawfulGoElem Bool where
  assert_box := fun _ => rfl
  box_ne_nil := fun _ h => Reply.noConfusion h
  box_of_assert := fun r v h => by
    cases r <;> simp [GoElem.assert] at h
    simp [GoElem.box, h]

instance : LawfulGoElem Int where
  assert_box := fun _ => rfl
  box_ne_nil := fun _ h => Reply.noConfusion h
  box_of_assert := fun r v h => by
    cases r <;> simp [GoElem.assert] at h
    simp [GoElem.box, h]

instance : LawfulGoElem F64 where
  assert_box := fun _ => rfl
  box_ne_nil := fun _ h => Reply.noConfusion h
  box_of_assert := fun r v h => by
    cases r <;> simp [GoElem.assert] at h
    simp [GoElem.box, h]

instance : LawfulGoElem String where
  assert_box := fun _ => rfl
  box_ne_nil := fun _ h => Reply.noConfusion h
  box_of_assert := fun r v h => by
    cases r <;> simp [GoElem.assert] at h
    simp [GoElem.box, h]

/-! ## `sort.Slice` -/

/-- One pass of the inner loop of the library insertion sort,
`for j := i; j > a && less(j, j-1); j-- { swap(j, j-1) }`: the element `x` travels to the
left while it is less than its left neighbour. The already processed part of the slice
is given back to front, so its head is the neighbour `data[j-1]`. -/
def insertLeft {α : Type} (less : α → α → Bool) (x : α) : List α → List α
  | [] => [x]
  | p :: ps => if less x p then p :: insertLeft less x ps else x :: p :: ps

/-- The outer loop `for i := a + 1; i < b; i++`, the processed part held back to front. -/
def insertionLoop {α : Type} (less : α → α → Bool) : List α → List α → List α
  | done, [] => done
  | done, x :: rest => insertionLoop less (insertLeft less x done) rest

/-- The library call `sort.Slice(s, less)` with `less(i, j)` comparing `s[i]` with `s[j]`.
It is the insertion sort the library runs on short slices (at most 12 elements); on
longer slices the library switches to pattern-defeating quicksort, whose result is the
same arrangement whenever `less` is a strict total order on the elements. Where `less`
is no such order and the slice is longer, the library is covered by `SlicePlan` alone. -/
def sortSlice {α : Type} (less : α → α → Bool) (s : List α) : List α :=
  (insertionLoop less [] s).reverse

/-! ## Generic converters -/

/-- Modelled from the spec: the per-entry loop of `mapConverter[T].convert`, which
is defined outside `converters.go`. Following section 4.2 for the leaf converter
(`next == nil`): each value is cast to `T`; a value of another type is a TypeMismatch
carrying observed and expected type, a `nil` value an UnexpectedNil; the first failure
ends the loop. -/
def mapConverter.convertEntries (T : Type) [GoElem T] :
    List (String × Reply) → Except GoError (List (String × T))
  | [] => .ok []
  | (k, v) :: rest =>
    match GoElem.assert (T := T) v with
    | some t =>
      match mapConverter.convertEntries T rest with
      | .ok m => .ok ((k, t) :: m)
      | .error e => .error e
    | none =>
      match v.goType with
      | none => .error (.unexpectedNil (GoElem.goType T))
      | some ty => .error (.typeMismatch ty (GoElem.goType T))

/-- Modelled from the spec: `mapConverter[T]{nil, canBeNil}.convert`, which is defined
outside `converters.go`. Following section 4.2: a map reply becomes the mapping from each
key to its value cast to `T`, in whatever order the entries are visited; a reply that is
not a map is a TypeMismatch; a `nil` reply is absent under the nilable policy and an
UnexpectedNil otherwise. -/
def mapConverter.convert (T : Type) [GoElem T] (canBeNil : Bool) :
    Reply → GoRet (List (String × T))
  | .nil => if canBeNil then .ret none none
            else .ret none (some (.unexpectedNil .mapStringAny))
  | .map kvs =>
    match mapConverter.convertEntries T kvs with
    | .ok m => .ret (some m) none
    | .error e => .ret none (some e)
  | .bool _ => .ret none (some (.typeMismatch .bool .mapStringAny))
  | .int64 _ => .ret none (some (.typeMismatch .int64 .mapStringAny))
  | .float64 _ => .ret none (some (.typeMismatch .float64 .mapStringAny))
  | .str _ => .ret none (some (.typeMismatch .string .mapStringAny))
  | .arr _ => .ret none (some (.typeMismatch .sliceAny .mapStringAny))
  | .error _ => .ret none (some (.typeMismatch .errorString .mapStringAny))
  | .set _ => .ret none (some (.typeMismatch .mapStringStruct .mapStringAny))
  | .strs _ => .ret none (some (.typeMismatch .sliceString .mapStringAny))

/-- The function `ConvertMapOf[T]`: `mapConverter[T]{nil, false}.convert(data)`. -/
def ConvertMapOf (T : Type) [GoElem T] (data : Reply) : GoRet (List (String × T)) :=
  mapConverter.convert T false data

/-! ## Member and score -/

/-- Modelled from the spec: `models.MemberAndScore{member: string, score: float64}`. -/
structure MemberAndScore where
  Member : String
  Score : F64
  deriving DecidableEq

/-- The order the spec asks of member/score sequences: every adjacent pair `(x, y)`
has `x.Score < y.Score`, or equal scores and `x.Member < y.Member`; with `reverse` both
comparisons are flipped. -/
def ScoreOrdered (reverse : Bool) (out : List MemberAndScore) : Prop :=
  out.Chain' (fun x y =>
    if reverse then
      F64.gt x.Score y.Score = true ∨ (F64.eq x.Score y.Score = true ∧ x.Member > y.Member)
    else
      F64.lt x.Score y.Score = true ∨ (F64.eq x.Score y.Score = true ∧ x.Member < y.Member))

/-- The `less` closure of the forward branch (source lines 90-95). -/
def lessForward (a b : MemberAndScore) : Bool :=
  if F64.eq a.Score b.Score then strLess a.Member b.Member else F64.lt a.Score b.Score

/-- The `less` closure of the reverse branch (source lines 97-102). -/
def lessReverse (a b : MemberAndScore) : Bool :=
  if F64.eq a.Score b.Score then strLess b.Member a.Member else F64.gt a.Score b.Score

/-- The function returned by `MakeConvertMapOfMemberAndScore(reverse)`. -/
def MakeConvertMapOfMemberAndScore (reverse : Bool) (data : Reply) :
    GoRet (List MemberAndScore) :=
  match ConvertMapOf F64 data with
  | .abort => .abort
  | .ret _ (some err) => .ret none (some err)
  | .ret none none => .abort
  | .ret (some res) none =>
    let memberAndScoreArray := res.map (fun kv => MemberAndScore.mk kv.1 kv.2)
    if !reverse then
      .ret (some (sortSlice lessForward memberAndScoreArray)) none
    else
      .ret (some (sortSlice lessReverse memberAndScoreArray)) none

/-- A reply map from member to float score, listed in one iteration order. -/
def scoreMap (l : List (String × F64)) : Reply :=
  .map (l.map (fun kv => (kv.1, Reply.float64 kv.2)))

/-- Modelled from the spec: the per-element loop of `arrayConverter[T].convert`, which
is defined outside `converters.go`. Following section 4.1 for the leaf converter
(`next == nil`): each element is cast to `T` in source order; an element of another type
is a TypeMismatch carrying observed and expected type, a `nil` element an UnexpectedNil;
the first failure ends the loop. -/
def arrayConverter.convertElems (T : Type) [GoElem T] :
    List Reply → Except GoError (List T)
  | [] => .ok []
  | v :: rest =>
    match GoElem.assert (T := T) v with
    | some t =>
      match arrayConverter.convertElems T rest with
      | .ok out => .ok (t :: out)
      | .error e => .error e
    | none =>
      match v.goType with
      | none => .error (.unexpectedNil (GoElem.goType T))
      | some ty => .error (.typeMismatch ty (GoElem.goType T))

/-- Modelled from the spec: `arrayConverter[T]{nil, canBeNil}.convert`, which is defined
outside `converters.go`. Following section 4.1: an array reply becomes the sequence of its
elements cast to `T`, in source order; a reply that is not an array is a TypeMismatch; a
`nil` reply is absent under the nilable policy and an UnexpectedNil otherwise. -/
def arrayConverter.convert (T : Type) [GoElem T] (canBeNil : Bool) :
    Reply → GoRet (List T)
  | .nil => if canBeNil then .ret none none
            else .ret none (some (.unexpectedNil .sliceAny))
  | .arr xs =>
    match arrayConverter.convertElems T xs with
    | .ok out => .ret (some out) none
    | .error e => .ret none (some e)
  | .bool _ => .ret none (some (.typeMismatch .bool .sliceAny))
  | .int64 _ => .ret none (some (.typeMismatch .int64 .sliceAny))
  | .float64 _ => .ret none (some (.typeMismatch .float64 .sliceAny))
  | .str _ => .ret none (some (.typeMismatch .string .sliceAny))
  | .map _ => .ret none (some (.typeMismatch .mapStringAny .sliceAny))
  | .error _ => .ret none (some (.typeMismatch .errorString .sliceAny))
  | .set _ => .ret none (some (.typeMismatch .mapStringStruct .sliceAny))
  | .strs _ => .ret none (some (.typeMismatch .sliceString .sliceAny))

/-! ## Nilable arrays -/

/-- Modelled from the spec: `models.Result[T]`, either `Present(T)` or `Absent`;
`CreateResultOf` builds the first and `CreateNilResultOf` the second. -/
inductive Result (T : Type)
  | Present (val : T)
  | Absent
  deriving DecidableEq

/-- The loop of `ConvertArrayOfNilOr[T]` (source lines 21-31). On a failed assertion the
source formats `val`, the zero value of `T` left by the assertion, with `%T`, and
`GetType[T]()` with `%v`: both arguments are the type `T`. -/
def ConvertArrayOfNilOr.loop (T : Type) [GoElem T] :
    List Reply → Except GoError (List (Result T))
  | [] => .ok []
  | value :: rest =>
    match value with
    | .nil =>
      match ConvertArrayOfNilOr.loop T rest with
      | .ok res => .ok (Result.Absent :: res)
      | .error e => .error e
    | value =>
      match GoElem.assert (T := T) value with
      | some val =>
        match ConvertArrayOfNilOr.loop T rest with
        | .ok res => .ok (Result.Present val :: res)
        | .error e => .error e
      | none => .error (.unexpectedType (GoElem.goType T) (GoElem.goType T))

/-- The function `ConvertArrayOfNilOr[T]`; `data.([]any)` aborts on anything but an
array. -/
def ConvertArrayOfNilOr (T : Type) [GoElem T] (data : Reply) : GoRet (List (Result T)) :=
  match data with
  | .arr arr =>
    match ConvertArrayOfNilOr.loop T arr with
    | .ok res => .ret (some res) none
    | .error e => .ret none (some e)
  | _ => .abort

/-! ## Stream entries -/

/-- Modelled from the spec: one `(field, value)` pair of a stream entry. -/
structure FieldValue where
  Field : String
  Value : String
  deriving DecidableEq

/-- Modelled from the spec: `models.StreamEntry{id: string, fields: seq of pairs}`. -/
structure StreamEntry where
  ID : String
  Fields : List FieldValue
  deriving DecidableEq

/-- The `less` closure of `MakeConvertStreamEntryArray` (source lines 442-447). -/
def lessEntry (reverse : Bool) (a b : StreamEntry) : Bool :=
  if reverse then strLess b.ID a.ID else strLess a.ID b.ID

/-- The function returned by `MakeConvertStreamEntryArray(reverse)`. The helper
`CreateFieldInfoArray`, defined outside `converters.go`, is the argument `fieldInfo`;
`data.(map[string]any)` aborts on anything but a map. -/
def MakeConvertStreamEntryArray (fieldInfo : Reply → List FieldValue) (reverse : Bool)
    (data : Reply) : GoRet (List StreamEntry) :=
  match data with
  | .map claimedEntries =>
    let result := claimedEntries.map (fun kv => StreamEntry.mk kv.1 (fieldInfo kv.2))
    .ret (some (sortSlice (lessEntry reverse) result)) none
  | _ => .abort

/-- Modelled from the spec: `XAutoClaimResponse{next_id, claimed, deleted}`; the `nil`
slice of deleted messages is `none`. -/
structure XAutoClaimResponse where
  NextEntry : String
  ClaimedEntries : List StreamEntry
  DeletedMessages : Option (List String)
  deriving DecidableEq

/-- Modelled from the spec: the just-id variant of `XAutoClaimResponse`. -/
structure XAutoClaimJustIdResponse where
  NextEntry : String
  ClaimedEntries : List String
  DeletedMessages : Option (List String)
  deriving DecidableEq

/-- The single-value assertion `arr[0].(string)`: aborts when the index is out of range
or the element is not a string. -/
def assertString (x : Option Reply) : Option String :=
  match x with
  | some (.str s) => some s
  | _ => none

/-- The tail of both autoclaim converters (source lines 143-158 and 177-192): the deleted
messages are converted when the array has three elements, then the result is built. -/
def autoClaimDeleted (len : Nat) (arr : List Reply) : GoRet (Option (List String)) :=
  if len = 3 then
    match arr[2]? with
    | none => .abort
    | some a2 =>
      match arrayConverter.convert String false a2 with
      | .abort => .abort
      | .ret _ (some err) => .ret none (some err)
      | .ret none none => .abort
      | .ret (some converted) none => .ret (some (some converted)) none
  else .ret (some none) none

/-- The function `ConvertXAutoClaimResponse`. -/
def ConvertXAutoClaimResponse (fieldInfo : Reply → List FieldValue) (data : Reply) :
    GoRet XAutoClaimResponse :=
  match data with
  | .arr arr =>
    let len := arr.length
    if len < 2 ∨ len > 3 then .ret none (some (.arrayLength len))
    else
      match arr[1]? with
      | none => .abort
      | some a1 =>
        match MakeConvertStreamEntryArray fieldInfo false a1 with
        | .abort => .abort
        | .ret _ (some err) => .ret none (some err)
        | .ret claimedEntries none =>
          match autoClaimDeleted len arr with
          | .abort => .abort
          | .ret _ (some err) => .ret none (some err)
          | .ret none none => .abort
          | .ret (some deletedMessages) none =>
            match assertString arr[0]?, claimedEntries with
            | some nextEntry, some claimed =>
              .ret (some ⟨nextEntry, claimed, deletedMessages⟩) none
            | _, _ => .abort
  | _ => .abort

/-- The function `ConvertXAutoClaimJustIdResponse`. -/
def ConvertXAutoClaimJustIdResponse (data : Reply) : GoRet XAutoClaimJustIdResponse :=
  match data with
  | .arr arr =>
    let len := arr.length
    if len < 2 ∨ len > 3 then .ret none (some (.arrayLength len))
    else
      match arr[1]? with
      | none => .abort
      | some a1 =>
        match arrayConverter.convert String false a1 with
        | .abort => .abort
        | .ret _ (some err) => .ret none (some err)
        | .ret none none => .abort
        | .ret (some claimedEntries) none =>
          match autoClaimDeleted len arr with
          | .abort => .abort
          | .ret _ (some err) => .ret none (some err)
          | .ret none none => .abort
          | .ret (some deletedMessages) none =>
            match assertString arr[0]? with
            | some nextEntry => .ret (some ⟨nextEntry, claimedEntries, deletedMessages⟩) none
            | none => .abort
  | _ => .abort

/-! ## The type-checked dispatcher -/

/-- The `any` returned by `ConverterAndTypeChecker`: the reply itself, handed back
unconverted, or whatever the converter returned. -/
inductive Checked (β : Type)
  | passthrough (data : Reply)
  | converted (v : β)

/-- The function `ConverterAndTypeChecker`. A reply is `nil` exactly when it has no
dynamic type; `reflect.TypeOf(errors.New(""))` is the type `*errors.errorString`. -/
def ConverterAndTypeChecker {β : Type} (data : Reply) (expectedType : Kind)
    (isNilable : Bool) (converter : Reply → GoRet β) : GoRet (Checked β) :=
  match data.goType with
  | none =>
    if isNilable then .ret none none
    else .ret none (some (.gotNil expectedType))
  | some ty =>
    if ty.Kind = expectedType then (converter data).map Checked.converted
    else if ty = GoType.errorString then .ret (some (Checked.passthrough data)) none
    else .ret none (some (.gotType ty expectedType))

/-! ## Loops and map access -/

/-- What one pass through the body of a `range` loop that fills a slice does: it
appends an element, it appends nothing, it leaves the function with `return nil, err`,
or it aborts. -/
inductive Iter (β : Type)
  | append (b : β)
  | skip
  | fail (e : GoError)
  | abort

/-- A `range` loop over a slice whose body appends to a result slice: the passes run in
source order and the first pass that returns or aborts ends the loop. -/
def rangeLoop {α β : Type} (body : α → Iter β) : List α → GoRet (List β)
  | [] => .ret (some []) none
  | x :: rest =>
    match body x with
    | .abort => .abort
    | .fail e => .ret none (some e)
    | .skip => rangeLoop body rest
    | .append b =>
      match rangeLoop body rest with
      | .ret (some out) none => .ret (some (b :: out)) none
      | other => other

/-- The index expression `m[key]` on a `map[string]any`: the stored value, or `nil` when
the key is missing. -/
def mapIndex (m : List (String × Reply)) (key : String) : Reply :=
  match m.lookup key with
  | some v => v
  | none => .nil

/-- The assignment `m[key] = v` on a Go map: the value of an existing key is replaced, a
new key is added. -/
def mapSet {β : Type} (m : List (String × β)) (key : String) (v : β) : List (String × β) :=
  match m with
  | [] => [(key, v)]
  | (k, w) :: rest => if k = key then (k, v) :: rest else (k, w) :: mapSet rest key v

/-- Whether a reply has the dynamic type `map[string]any`. -/
def Reply.isMap : Reply → Bool
  | .map _ => true
  | _ => false

/-- The two-value assertion `m, ok := item.(map[string]any)`. -/
def Reply.asMap : Reply → Option (List (String × Reply))
  | .map kvs => some kvs
  | _ => none

/-! ## `strconv.ParseInt` -/

/-- The digit a byte stands for in `strconv.ParseUint` with base 10: only `'0'` to `'9'`
are accepted. -/
def decimalDigit (c : Char) : Option Nat :=
  if 48 ≤ c.toNat ∧ c.toNat ≤ 57 then some (c.toNat - 48) else none

/-- The digit loop of `strconv.ParseUint(s, 10, 64)`: a byte that is no digit is a syntax
error, and a step whose result `n*10 + d` leaves the range of `uint64` is a range
error; `none` stands for the syntax error and `some none` for the range error. -/
def parseUintLoop : Nat → List Char → Option (Option Nat)
  | n, [] => some (some n)
  | n, c :: rest =>
    match decimalDigit c with
    | none => none
    | some d =>
      if n * 10 + d > 18446744073709551615 then some none
      else parseUintLoop (n * 10 + d) rest

/-- The library call `strconv.ParseInt(s, 10, 64)`: an optional sign, then at least one
decimal digit; the value must lie between `-2^63` and `2^63 - 1`. -/
def parseInt64 (s : String) : Except GoError Int :=
  match s.data with
  | [] => .error (.parseSyntax s)
  | c :: rest =>
    let neg := c = '-'
    let body := if c = '+' ∨ c = '-' then rest else c :: rest
    match body with
    | [] => .error (.parseSyntax s)
    | _ :: _ =>
      match parseUintLoop 0 body with
      | none => .error (.parseSyntax s)
      | some none => .error (.parseRange s)
      | some (some un) =>
        if ¬ neg ∧ un ≥ 9223372036854775808 then .error (.parseRange s)
        else if neg ∧ un > 9223372036854775808 then .error (.parseRange s)
        else if neg then .ok (-(un : Int)) else .ok (un : Int)

/-! ## Pending summary -/

/-- Modelled from the spec: `models.ConsumerPendingMessage{consumer, count}`. -/
structure ConsumerPendingMessage where
  ConsumerName : String
  MessageCount : Int
  deriving DecidableEq

/-- Modelled from the spec: `models.XPendingSummary{count, start_id, end_id,
per_consumer}`; a `nil` and an empty slice of consumer messages are both `[]`. -/
structure XPendingSummary where
  NumOfMessages : Int
  StartId : Result String
  EndId : Result String
  ConsumerMessages : List ConsumerPendingMessage
  deriving DecidableEq

/-- Source lines 270-274 and 275-279: `nil` gives the nil result, anything else is
asserted to be a string; an index out of range or a failed assertion aborts (`none`). -/
def nilOrString (x : Option Reply) : Option (Result String) :=
  match x with
  | some .nil => some .Absent
  | some (.str s) => some (.Present s)
  | _ => none

/-- The body of the loop over the pending messages (source lines 283-293). -/
def consumerMessageBody (msg : Reply) : Iter ConsumerPendingMessage :=
  match msg with
  | .arr consumerMessage =>
    match assertString consumerMessage[1]? with
    | none => .abort
    | some text =>
      match parseInt64 text with
      | .error err => .fail err
      | .ok count =>
        match assertString consumerMessage[0]? with
        | none => .abort
        | some name => .append ⟨name, count⟩
  | _ => .abort

/-- The function `ConvertXPendingResponse`. -/
def ConvertXPendingResponse (data : Reply) : GoRet XPendingSummary :=
  match data with
  | .arr arr =>
    match (arr[0]? : Option Reply) with
    | some (.int64 NumOfMessages) =>
      match nilOrString arr[1]? with
      | none => .abort
      | some StartId =>
        match nilOrString arr[2]? with
        | none => .abort
        | some EndId =>
          match (arr[3]? : Option Reply) with
          | none => .abort
          | some (.arr pendingMessages) =>
            match rangeLoop consumerMessageBody pendingMessages with
            | .abort => .abort
            | .ret _ (some err) => .ret none (some err)
            | .ret none none => .abort
            | .ret (some ConsumerPendingMessages) none =>
              .ret (some ⟨NumOfMessages, StartId, EndId, ConsumerPendingMessages⟩) none
          | some _ => .ret (some ⟨NumOfMessages, StartId, EndId, []⟩) none
    | _ => .abort
  | _ => .abort

/-- The text of a decimal numeral: an optional minus sign and the digits, most
significant first. -/
def decimalText (neg : Bool) (digits : List Nat) : String :=
  String.mk ((if neg then ['-'] else []) ++ digits.map Nat.digitChar)

/-- The integer a decimal numeral denotes. -/
def decimalValue (neg : Bool) (digits : List Nat) : Int :=
  if neg then -((digits.foldl (fun n d => n * 10 + d) 0 : Nat) : Int)
  else ((digits.foldl (fun n d => n * 10 + d) 0 : Nat) : Int)

/-- The reply element for a `start` or `end` ID that is `nil` or a string. -/
def optionalString : Option String → Reply
  | none => .nil
  | some s => .str s

/-- A pending-summary reply `[count, start, end, consumers]` whose consumers are pairs of
a name and the text of a count. -/
def pendingReply (count : Int) (start stop : Option String)
    (consumers : List (String × String)) : Reply :=
  .arr [.int64 count, optionalString start, optionalString stop,
    .arr (consumers.map (fun c => Reply.arr [.str c.1, .str c.2]))]

/-! ## Geo search locations -/

/-- Modelled from the spec: the coordinate pair `{lon, lat}` of a location; the source
assigns it as a struct value (lines 375-378), so a location without coordinates holds the
zero value. -/
structure GeospatialData where
  Longitude : F64
  Latitude : F64
  deriving DecidableEq

/-- Modelled from the spec: `options.Location{name, distance, hash, coord}`. -/
structure Location where
  Name : String
  Coord : GeospatialData
  Dist : F64
  Hash : Int
  deriving DecidableEq

/-- Modelled from the spec: the per-element loop of
`arrayConverter[[]T]{arrayConverter[T]{nil, false}, false}.convert`, which is defined
outside `converters.go`. Following section 4.1 for a nested element converter: each
element is converted by the inner converter, in source order, and the first failure ends
the loop. -/
def arrayConverter.convertRows (T : Type) [GoElem T] : List Reply → GoRet (List (List T))
  | [] => .ret (some []) none
  | v :: rest =>
    match arrayConverter.convert T false v with
    | .abort => .abort
    | .ret _ (some e) => .ret none (some e)
    | .ret none none => .ret none (some (.unexpectedNil .sliceAny))
    | .ret (some row) none =>
      match arrayConverter.convertRows T rest with
      | .ret (some out) none => .ret (some (row :: out)) none
      | other => other

/-- Modelled from the spec: `arrayConverter[[]T]{arrayConverter[T]{nil, false},
false}.convert`, the array-of-arrays converter of section 4.1 under the non-nilable
policy. -/
def arrayConverter.convertNested (T : Type) [GoElem T] : Reply → GoRet (List (List T))
  | .nil => .ret none (some (.unexpectedNil .sliceAny))
  | .arr xs => arrayConverter.convertRows T xs
  | .bool _ => .ret none (some (.typeMismatch .bool .sliceAny))
  | .int64 _ => .ret none (some (.typeMismatch .int64 .sliceAny))
  | .float64 _ => .ret none (some (.typeMismatch .float64 .sliceAny))
  | .str _ => .ret none (some (.typeMismatch .string .sliceAny))
  | .map _ => .ret none (some (.typeMismatch .mapStringAny .sliceAny))
  | .error _ => .ret none (some (.typeMismatch .errorString .sliceAny))
  | .set _ => .ret none (some (.typeMismatch .mapStringStruct .sliceAny))
  | .strs _ => .ret none (some (.typeMismatch .sliceString .sliceAny))

/-- The loop over `additionalData` (source lines 367-380); the three `if` statements test
for three different dynamic types, so at most one of them fires for a value. `none` is
the abort of `coordArray[0].(float64)` or `coordArray[1].(float64)`. -/
def locationExtras : Location → List Reply → Option Location
  | location, [] => some location
  | location, value :: rest =>
    match value with
    | .float64 v => locationExtras { location with Dist := v } rest
    | .int64 v => locationExtras { location with Hash := v } rest
    | .arr coordArray =>
      match (coordArray[0]? : Option Reply), (coordArray[1]? : Option Reply) with
      | some (.float64 lon), some (.float64 lat) =>
        locationExtras { location with Coord := ⟨lon, lat⟩ } rest
      | _, _ => none
    | _ => locationExtras location rest

/-- The body of the loop over the converted rows (source lines 361-382). -/
def locationBody (responseArray : List Reply) : Iter Location :=
  match assertString responseArray[0]? with
  | none => .abort
  | some name =>
    match (responseArray[1]? : Option Reply) with
    | some (.arr additionalData) =>
      match locationExtras ⟨name, ⟨F64.zero, F64.zero⟩, F64.zero, 0⟩ additionalData with
      | some location => .append location
      | none => .abort
    | _ => .abort

/-- The function `ConvertLocationArrayResponse`. -/
def ConvertLocationArrayResponse (data : Reply) : GoRet (List Location) :=
  match arrayConverter.convertNested Reply data with
  | .abort => .abort
  | .ret _ (some err) => .ret none (some err)
  | .ret none none => .abort
  | .ret (some converted) none => rangeLoop locationBody converted

/-- The two-value assertion `v, ok := value.(float64)`. -/
def Reply.asFloat : Reply → Option F64
  | .float64 v => some v
  | _ => none

/-- The two-value assertion `v, ok := value.(int64)`. -/
def Reply.asInt : Reply → Option Int
  | .int64 v => some v
  | _ => none

/-- The coordinates read from a value that is an array starting with two floats. -/
def Reply.asCoord : Reply → Option GeospatialData
  | .arr (.float64 lon :: .float64 lat :: _) => some ⟨lon, lat⟩
  | _ => none

/-- A geo-search reply: an array of `[name, extras]` pairs. -/
def locationReply (pairs : List (String × List Reply)) : Reply :=
  .arr (pairs.map (fun p => Reply.arr [.str p.1, .arr p.2]))

/-! ## Ranked pop -/

/-- Modelled from the spec: `models.KeyWithArrayOfMembersAndScores`, a key and an ordered
sequence of members with scores. -/
structure KeyWithArrayOfMembersAndScores where
  Key : String
  MembersAndScores : List MemberAndScore
  deriving DecidableEq

/-- The function `ConvertKeyWithArrayOfMembersAndScores`. The constructor
`models.CreateKeyWithArrayOfMembersAndScoresResult`, defined outside `converters.go`, is
modelled from the spec as the present result; the assertion
`memberAndScoreArray.([]models.MemberAndScore)` aborts on the `nil` that comes with an
error. -/
def ConvertKeyWithArrayOfMembersAndScores (data : Reply) :
    GoRet (Result KeyWithArrayOfMembersAndScores) :=
  match data with
  | .nil => .ret none none
  | .arr arr =>
    match assertString arr[0]? with
    | none => .abort
    | some key =>
      match arr[1]? with
      | none => .abort
      | some a1 =>
        match MakeConvertMapOfMemberAndScore false a1 with
        | .abort => .abort
        | .ret none _ => .abort
        | .ret (some memberAndScoreArray) err =>
          .ret (some (Result.Present ⟨key, memberAndScoreArray⟩)) err
  | _ => .abort

/-! ## Stream introspection -/

/-- Modelled from the spec: `models.XInfoConsumerInfo`, with the nilable `Inactive`. -/
structure XInfoConsumerInfo where
  Name : String
  Pending : Int
  Idle : Int
  Inactive : Result Int
  deriving DecidableEq

/-- Modelled from the spec: `models.XInfoGroupInfo`, with the nilable `Lag` and
`EntriesRead`. -/
structure XInfoGroupInfo where
  Name : String
  Consumers : Int
  Pending : Int
  LastDeliveredId : String
  Lag : Result Int
  EntriesRead : Result Int
  deriving DecidableEq

/-- The type switch `switch v := x.(type) { case int64: ...; default: ... }` of source
lines 214-219, 246-251 and 252-257. -/
def int64OrNil (x : Reply) : Result Int :=
  match x with
  | .int64 v => .Present v
  | _ => .Absent

/-- The body of the loop of `ConvertXInfoConsumersResponse` (source lines 208-221). -/
def consumerInfoBody (group : List (String × Reply)) : Iter XInfoConsumerInfo :=
  match mapIndex group "name", mapIndex group "pending", mapIndex group "idle" with
  | .str name, .int64 pending, .int64 idle =>
    .append ⟨name, pending, idle, int64OrNil (mapIndex group "inactive")⟩
  | _, _, _ => .abort

/-- The function `ConvertXInfoConsumersResponse`. -/
def ConvertXInfoConsumersResponse (data : Reply) : GoRet (List XInfoConsumerInfo) :=
  match arrayConverter.convert (List (String × Reply)) false data with
  | .abort => .abort
  | .ret _ (some err) => .ret none (some err)
  | .ret none none => .abort
  | .ret (some arr) none => rangeLoop consumerInfoBody arr

/-- The body of the loop of `ConvertXInfoGroupsResponse` (source lines 239-259). -/
def groupInfoBody (group : List (String × Reply)) : Iter XInfoGroupInfo :=
  match mapIndex group "name", mapIndex group "consumers", mapIndex group "pending",
    mapIndex group "last-delivered-id" with
  | .str name, .int64 consumers, .int64 pending, .str lastDeliveredId =>
    .append ⟨name, consumers, pending, lastDeliveredId,
      int64OrNil (mapIndex group "lag"), int64OrNil (mapIndex group "entries-read")⟩
  | _, _, _, _ => .abort

/-- The function `ConvertXInfoGroupsResponse`. -/
def ConvertXInfoGroupsResponse (data : Reply) : GoRet (List XInfoGroupInfo) :=
  match arrayConverter.convert (List (String × Reply)) false data with
  | .abort => .abort
  | .ret _ (some err) => .ret none (some err)
  | .ret none none => .abort
  | .ret (some arr) none => rangeLoop groupInfoBody arr

/-! ## XREAD and XCLAIM -/

/-- Modelled from the spec: `models.StreamResponse`, the entries read from one stream. -/
structure StreamResponse where
  Entries : List StreamEntry
  deriving DecidableEq

/-- The loop over `streamMap` (source lines 551-566): the entries of the inner map are
appended in the order the inner `range` visits them, and the response is stored under the
stream name. `none` is the abort of `streamData.(map[string]any)`. -/
def ConvertXReadResponse.loop (fieldInfo : Reply → List FieldValue) :
    List (String × StreamResponse) → List (String × Reply) →
      Option (List (String × StreamResponse))
  | result, [] => some result
  | result, (streamName, streamData) :: rest =>
    match streamData with
    | .map entries =>
      ConvertXReadResponse.loop fieldInfo
        (mapSet result streamName
          ⟨entries.map (fun kv => StreamEntry.mk kv.1 (fieldInfo kv.2))⟩) rest
    | _ => none

/-- The function `ConvertXReadResponse`; the resulting Go map is listed in the order its
keys were first stored. -/
def ConvertXReadResponse (fieldInfo : Reply → List FieldValue) (data : Reply) :
    GoRet (List (String × StreamResponse)) :=
  match data with
  | .map streamMap =>
    match ConvertXReadResponse.loop fieldInfo [] streamMap with
    | some result => .ret (some result) none
    | none => .abort
  | _ => .abort

/-- Modelled from the spec: `models.XClaimResponse`, the fields of one claimed entry. -/
structure XClaimResponse where
  Fields : List FieldValue
  deriving DecidableEq

/-- The function `ConvertXClaimResponse`: anything but a `map[string]any` is answered
with the error of line 576. -/
def ConvertXClaimResponse (fieldInfo : Reply → List FieldValue) (data : Reply) :
    GoRet (List (String × XClaimResponse)) :=
  match data with
  | .map claimMap =>
    .ret (some (claimMap.foldl
      (fun result kv => mapSet result kv.1 (XClaimResponse.mk (fieldInfo kv.2))) [])) none
  | other => .ret none (some (.typeReceived other.goType))

/-! ## Scan -/

/-- Modelled from the spec: `models.ScanResult{cursor, page}`; the cursor made by
`models.NewCursorFromString` is kept as its string. -/
structure ScanResult where
  Cursor : String
  Data : List String
  deriving DecidableEq

/-- The function `ConvertArrayOf[T]`: `arrayConverter[T]{nil, false}.convert(data)`. -/
def ConvertArrayOf (T : Type) [GoElem T] (data : Reply) : GoRet (List T) :=
  arrayConverter.convert T false data

/-- The function `ConvertScanResult`. The result struct is built before the error is
looked at: `arr[0].(string)` and `scanData.([]string)` are both evaluated, and the second
aborts when `scanData` is the `nil` that comes with an error. -/
def ConvertScanResult (data : Reply) : GoRet ScanResult :=
  match data with
  | .arr arr =>
    match arr[1]? with
    | none => .abort
    | some a1 =>
      match ConvertArrayOf String a1 with
      | .abort => .abort
      | .ret scanData err =>
        match assertString arr[0]?, scanData with
        | some cursor, some page => .ret (some ⟨cursor, page⟩) err
        | _, _ => .abort
  | _ => .abort

/-! ## Function list -/

/-- Modelled from the spec: `models.FunctionInfo{name, description, flags}`. -/
structure FunctionInfo where
  Name : String
  Description : String
  Flags : List String
  deriving DecidableEq

/-- Modelled from the spec: `models.LibraryInfo{name, engine, code, functions}`; the
source assigns `Code` as a string (line 425), empty when there is no code. -/
structure LibraryInfo where
  Name : String
  Engine : String
  Functions : List FunctionInfo
  Code : String
  deriving DecidableEq

/-- The body of the inner loop of `ConvertFunctionListResponse` (source lines 394-416):
an element that is not a map is passed over. -/
def functionInfoBody (item : Reply) : Iter FunctionInfo :=
  match item with
  | .map function =>
    let description := match mapIndex function "description" with
      | .str desc => desc
      | _ => ""
    let flags := match mapIndex function "flags" with
      | .set flagsMap => flagsMap
      | _ => []
    match mapIndex function "name" with
    | .str name => .append ⟨name, description, flags⟩
    | _ => .abort
  | _ => .skip

/-- The body of the outer loop of `ConvertFunctionListResponse` (source lines 390-429):
an element that is not a map is passed over. -/
def libraryInfoBody (item : Reply) : Iter LibraryInfo :=
  match item with
  | .map itemMap =>
    match mapIndex itemMap "functions" with
    | .arr items =>
      match rangeLoop functionInfoBody items with
      | .ret (some functionInfo) none =>
        match mapIndex itemMap "library_name", mapIndex itemMap "engine" with
        | .str name, .str engine =>
          let code := match mapIndex itemMap "library_code" with
            | .str code => code
            | _ => ""
          .append ⟨name, engine, functionInfo, code⟩
        | _, _ => .abort
      | _ => .abort
    | _ => .abort
  | _ => .skip

/-- The function `ConvertFunctionListResponse`. -/
def ConvertFunctionListResponse (data : Reply) : GoRet (List LibraryInfo) :=
  match data with
  | .arr items => rangeLoop libraryInfoBody items
  | _ => .abort

/-! ## Stream entry IDs -/

/-- The value of a run of decimal digits; `none` when a character is no digit or the run
is empty. -/
def digitsValue (cs : List Char) : Option Nat :=
  match cs with
  | [] => none
  | _ :: _ => cs.foldl (fun acc c =>
      match acc, decimalDigit c with
      | some n, some d => some (n * 10 + d)
      | _, _ => none) (some 0)

/-- The pair `(ms, seq)` of a stream entry ID `<ms>-<seq>`, the key by which the server
orders the entries of a stream. -/
def streamIdKey (id : String) : Option (Nat × Nat) :=
  match digitsValue (id.data.takeWhile (fun c => c != '-')),
    digitsValue ((id.data.dropWhile (fun c => c != '-')).drop 1) with
  | some ms, some seq => some (ms, seq)
  | _, _ => none

/-! ## Function stats -/

/-- Modelled from the spec: `models.Engine{language, function_count, library_count}`. -/
structure Engine where
  Language : String
  FunctionCount : Int
  LibraryCount : Int
  deriving DecidableEq

/-- Modelled from the spec: `models.RunningScript{name, cmd, args, duration}`; the
duration is a `time.Duration`, an `int64` count of nanoseconds, and a `nil` slice of
arguments is `[]`. -/
structure RunningScript where
  Name : String
  Cmd : String
  Args : List String
  Duration : Int
  deriving DecidableEq

/-- The zero value left by `var runningScript models.RunningScript` (source line 470). -/
def RunningScript.zero : RunningScript := ⟨"", "", [], 0⟩

/-- Modelled from the spec: `models.FunctionStatsResult{engines, running}`; the source
stores the running script as a struct value (line 484). The Go map of engines is listed
in the order its keys were first stored. -/
structure FunctionStatsResult where
  Engines : List (String × Engine)
  RunningScript : RunningScript
  deriving DecidableEq

/-- The value of an `int64` expression: the mathematical result wrapped to 64 bits. -/
def wrapInt64 (x : Int) : Int :=
  (x + 9223372036854775808) % 18446744073709551616 - 9223372036854775808

/-- The loop over `enginesMap` (source lines 457-466): an entry that is not a map is
passed over; `none` is the abort of `engineMap["functions_count"].(int64)` or
`engineMap["libraries_count"].(int64)`. -/
def functionStatsEngines :
    List (String × Engine) → List (String × Reply) → Option (List (String × Engine))
  | engines, [] => some engines
  | engines, (engineName, engineData) :: rest =>
    match engineData with
    | .map engineMap =>
      match mapIndex engineMap "functions_count", mapIndex engineMap "libraries_count" with
      | .int64 functionCount, .int64 libraryCount =>
        functionStatsEngines
          (mapSet engines engineName ⟨engineName, functionCount, libraryCount⟩) rest
      | _, _ => none
    | _ => functionStatsEngines engines rest

/-- The running-script part (source lines 470-480): a `nil` or any value that is not a
map leaves the zero value; `none` is the abort of one of the four assertions. The
duration is `time.Duration(ms) * time.Millisecond`, an `int64` product. -/
def functionStatsScript (scriptData : Reply) : Option RunningScript :=
  match scriptData with
  | .map scriptMap =>
    match mapIndex scriptMap "name", mapIndex scriptMap "command",
      mapIndex scriptMap "arguments", mapIndex scriptMap "duration_ms" with
    | .str name, .str cmd, .strs args, .int64 ms =>
      some ⟨name, cmd, args, wrapInt64 (ms * 1000000)⟩
    | _, _, _, _ => none
  | _ => some RunningScript.zero

/-- The function `ConvertFunctionStatsResponse`; `data.(map[string]any)` aborts on
anything but a map. -/
def ConvertFunctionStatsResponse (data : Reply) : GoRet FunctionStatsResult :=
  match data with
  | .map nodeMap =>
    let engines := match mapIndex nodeMap "engines" with
      | .map enginesMap => functionStatsEngines [] enginesMap
      | _ => some []
    match engines, functionStatsScript (mapIndex nodeMap "running_script") with
    | some engines, some runningScript => .ret (some ⟨engines, runningScript⟩) none
    | _, _ => .abort
  | _ => .abort

/-! ## `sort.Slice` as calls of `Less` and `Swap` -/

/-- A run of the library call `sort.Slice` on a slice of `n` elements. The library
reaches the slice only through the two functions of its `lessSwap` value: `Less(i, j)`,
the closure of the caller, and `Swap(i, j)`, the swapper of the slice. A run that
returns is therefore a finite tree of such calls on indices below `n`, each call chosen
from the answers `Less` has given so far; the insertion sort of short slices and the
pattern-defeating quicksort and heap sort of long ones are all of this form. -/
inductive SlicePlan (n : Nat)
  | done
  | swap (i j : Fin n) (next : SlicePlan n)
  | less (i j : Fin n) (yes no : SlicePlan n)

/-- The effect of a run on the slice, held as the function from index to element:
`Swap(i, j)` exchanges the elements at `i` and `j`, and `Less(i, j)` applies the closure
of the caller to the elements that stand at `i` and `j` at that moment. -/
def runPlan {α : Type} {n : Nat} (less : α → α → Bool) :
    SlicePlan n → (Fin n → α) → (Fin n → α)
  | .done, slice => slice
  | .swap i j next, slice => runPlan less next (slice ∘ Equiv.swap i j)
  | .less i j yes no, slice =>
    if less (slice i) (slice j) then runPlan less yes slice else runPlan less no slice

/-- The library call `sort.Slice(s, less)` for a library that runs the plan `plan n` on
slices of `n` elements. -/
def sortSliceVia {α : Type} (plan : (n : Nat) → SlicePlan n) (less : α → α → Bool)
    (s : List α) : List α :=
  List.ofFn (runPlan less (plan s.length) s.get)

/-- The inner loop of the library insertion sort at index `j`,
`for ; j > 0 && less(j, j-1); j-- { swap(j, j-1) }`, followed by `next`. -/
def insertionInner (n : Nat) (next : SlicePlan n) : (j : Nat) → j < n → SlicePlan n
  | 0, _ => next
  | j + 1, h =>
    .less ⟨j + 1, h⟩ ⟨j, Nat.lt_of_succ_lt h⟩
      (.swap ⟨j + 1, h⟩ ⟨j, Nat.lt_of_succ_lt h⟩
        (insertionInner n next j (Nat.lt_of_succ_lt h)))
      next

/-- The outer loop of the library insertion sort from index `i` on,
`for ; i < n; i++ { ... }`; the first argument counts the passes that are left. -/
def insertionOuter (n : Nat) : Nat → Nat → SlicePlan n
  | 0, _ => .done
  | passes + 1, i =>
    if h : i < n then insertionInner n (insertionOuter n passes (i + 1)) i h else .done

/-- The run of the library on a short slice: `insertionSort(data, 0, n)`, whose outer
loop starts at index 1. -/
def insertionPlan (n : Nat) : SlicePlan n := insertionOuter n n 1

/-- The function returned by `MakeConvertMapOfMemberAndScore(reverse)`, for a library
whose `sort.Slice` runs `plan n` on slices of `n` elements; with `insertionPlan` it is
the converter written with `sortSlice`. -/
def MakeConvertMapOfMemberAndScoreVia (plan : (n : Nat) → SlicePlan n) (reverse : Bool)
    (data : Reply) : GoRet (List MemberAndScore) :=
  match ConvertMapOf F64 data with
  | .abort => .abort
  | .ret _ (some err) => .ret none (some err)
  | .ret none none => .abort
  | .ret (some res) none =>
    let memberAndScoreArray := res.map (fun kv => MemberAndScore.mk kv.1 kv.2)
    if !reverse then
      .ret (some (sortSliceVia plan lessForward memberAndScoreArray)) none
    else
      .ret (some (sortSliceVia plan lessReverse memberAndScoreArray)) none

/-! ## Facts about the comparisons -/

theorem F64.lt_iff (x y : F64) :
    F64.lt x y = true ↔ x.isNaN = false ∧ y.isNaN = false ∧ x.key < y.key := by
  simp [F64.lt, and_assoc]

theorem F64.eq_iff (x y : F64) :
    F64.eq x y = true ↔ x.isNaN = false ∧ y.isNaN = false ∧ x.key = y.key := by
  simp [F64.eq, and_assoc]

theorem strLess_iff (a b : String) : strLess a b = true ↔ a < b := by
  simp [strLess]

theorem lessForward_iff (a b : MemberAndScore) :
    lessForward a b = true ↔
      a.Score.isNaN = false ∧ b.Score.isNaN = false ∧
        (a.Score.key < b.Score.key ∨ (a.Score.key = b.Score.key ∧ a.Member < b.Member)) := by
  unfold lessForward
  by_cases h : F64.eq a.Score b.Score = true
  · rw [if_pos h, strLess_iff]
    rw [F64.eq_iff] at h
    obtain ⟨ha, hb, hk⟩ := h
    constructor
    · intro hm
      exact ⟨ha, hb, Or.inr ⟨hk, hm⟩⟩
    · rintro ⟨-, -, hlt | ⟨-, hm⟩⟩
      · omega
      · exact hm
  · rw [if_neg h, F64.lt_iff]
    rw [F64.eq_iff] at h
    constructor
    · rintro ⟨ha, hb, hlt⟩
      exact ⟨ha, hb, Or.inl hlt⟩
    · rintro ⟨ha, hb, hlt | ⟨hk, -⟩⟩
      · exact ⟨ha, hb, hlt⟩
      · exact absurd ⟨ha, hb, hk⟩ h

theorem lessReverse_eq (a b : MemberAndScore) : lessReverse a b = lessForward b a := by
  unfold lessReverse lessForward F64.gt
  have hsymm : F64.eq a.Score b.Score = F64.eq b.Score a.Score := by
    rw [Bool.eq_iff_iff, F64.eq_iff, F64.eq_iff]
    constructor <;> rintro ⟨h1, h2, h3⟩ <;> exact ⟨h2, h1, h3.symm⟩
  rw [hsymm]

theorem lessForward_trans (a b c : MemberAndScore)
    (hab : lessForward a b = true) (hbc : lessForward b c = true) :
    lessForward a c = true := by
  rw [lessForward_iff] at *
  obtain ⟨ha, _, h1⟩ := hab
  obtain ⟨_, hc, h2⟩ := hbc
  refine ⟨ha, hc, ?_⟩
  rcases h1 with h1 | ⟨h1, m1⟩ <;> rcases h2 with h2 | ⟨h2, m2⟩
  · left; omega
  · left; omega
  · left; omega
  · right; exact ⟨by omega, lt_trans m1 m2⟩

theorem lessForward_asymm (a b : MemberAndScore)
    (hab : lessForward a b = true) (hba : lessForward b a = true) : False := by
  rw [lessForward_iff] at *
  obtain ⟨_, _, h1⟩ := hab
  obtain ⟨_, _, h2⟩ := hba
  rcases h1 with h1 | ⟨h1, m1⟩ <;> rcases h2 with h2 | ⟨h2, m2⟩
  · omega
  · omega
  · omega
  · exact lt_asymm m1 m2

theorem lessForward_total (a b : MemberAndScore)
    (ha : a.Score.isNaN = false) (hb : b.Score.isNaN = false) (hne : a.Member ≠ b.Member) :
    lessForward a b = true ∨ lessForward b a = true := by
  rw [lessForward_iff, lessForward_iff]
  rcases lt_trichotomy a.Score.key b.Score.key with h | h | h
  · exact Or.inl ⟨ha, hb, Or.inl h⟩
  · rcases lt_or_gt_of_ne hne with m | m
    · exact Or.inl ⟨ha, hb, Or.inr ⟨h, m⟩⟩
    · exact Or.inr ⟨hb, ha, Or.inr ⟨h.symm, m⟩⟩
  · exact Or.inr ⟨hb, ha, Or.inl h⟩

/-! ## Facts about `sortSlice` -/

theorem insertLeft_perm {α : Type} (less : α → α → Bool) (x : α) (done : List α) :
    (insertLeft less x done).Perm (x :: done) := by
  induction done with
  | nil => exact List.Perm.refl _
  | cons p ps ih =>
    unfold insertLeft
    split
    · exact (List.Perm.cons p ih).trans (List.Perm.swap x p ps)
    · exact List.Perm.refl _

theorem insertionLoop_perm {α : Type} (less : α → α → Bool) (done rest : List α) :
    (insertionLoop less done rest).Perm (done ++ rest) := by
  induction rest generalizing done with
  | nil => simp [insertionLoop]
  | cons x rest ih =>
    unfold insertionLoop
    refine (ih _).trans ?_
    refine ((insertLeft_perm less x done).append_right rest).trans ?_
    simpa using (@List.perm_middle _ x done rest).symm

theorem sortSlice_perm {α : Type} (less : α → α → Bool) (s : List α) :
    (sortSlice less s).Perm s := by
  unfold sortSlice
  exact (List.reverse_perm _).trans (by simpa using insertionLoop_perm less [] s)

theorem insertLeft_sorted {α : Type} (less : α → α → Bool)
    (htrans : ∀ a b c, less a b = true → less b c = true → less a c = true)
    (x : α) (done : List α)
    (hdone : done.Pairwise (fun p q => less q p = true))
    (hx : ∀ p ∈ done, less x p = true ∨ less p x = true) :
    (insertLeft less x done).Pairwise (fun p q => less q p = true) := by
  induction done with
  | nil => simp [insertLeft]
  | cons p ps ih =>
    rw [List.pairwise_cons] at hdone
    unfold insertLeft
    split
    · rename_i hlt
      rw [List.pairwise_cons]
      refine ⟨?_, ih hdone.2 (fun q hq => hx q (List.mem_cons_of_mem _ hq))⟩
      intro q hq
      rcases List.mem_cons.1 ((insertLeft_perm less x ps).subset hq) with rfl | hq
      · exact hlt
      · exact hdone.1 q hq
    · rename_i hnlt
      have hpx : less p x = true := by
        rcases hx p (List.mem_cons_self _ _) with h | h
        · exact absurd h hnlt
        · exact h
      rw [List.pairwise_cons]
      refine ⟨?_, List.pairwise_cons.2 hdone⟩
      intro q hq
      rcases List.mem_cons.1 hq with rfl | hq
      · exact hpx
      · exact htrans _ _ _ (hdone.1 q hq) hpx

theorem insertionLoop_sorted {α : Type} (less : α → α → Bool)
    (htrans : ∀ a b c, less a b = true → less b c = true → less a c = true)
    (done rest : List α)
    (hdone : done.Pairwise (fun p q => less q p = true))
    (hcmp : (done ++ rest).Pairwise (fun a b => less a b = true ∨ less b a = true)) :
    (insertionLoop less done rest).Pairwise (fun p q => less q p = true) := by
  induction rest generalizing done with
  | nil => simpa [insertionLoop] using hdone
  | cons x rest ih =>
    unfold insertionLoop
    have hperm : (insertLeft less x done ++ rest).Perm (done ++ x :: rest) :=
      ((insertLeft_perm less x done).append_right rest).trans
        (by simpa using (@List.perm_middle _ x done rest).symm)
    refine ih _ (insertLeft_sorted less htrans x done hdone ?_) ?_
    · intro p hp
      have h := (List.pairwise_append.1 hcmp).2.2 p hp x (List.mem_cons_self _ _)
      exact h.symm
    · exact (hperm.pairwise_iff (fun h => Or.symm h)).2 hcmp

/-- On a slice whose elements are pairwise comparable under a transitive `less`, the
result of `sortSlice` is ordered by `less`. -/
theorem sortSlice_sorted {α : Type} (less : α → α → Bool)
    (htrans : ∀ a b c, less a b = true → less b c = true → less a c = true)
    (s : List α)
    (hcmp : s.Pairwise (fun a b => less a b = true ∨ less b a = true)) :
    (sortSlice less s).Pairwise (fun a b => less a b = true) := by
  unfold sortSlice
  rw [List.pairwise_reverse]
  exact insertionLoop_sorted less htrans [] s List.Pairwise.nil (by simpa using hcmp)

/-- Two listings of the same elements sort to the same slice when `less` is transitive,
asymmetric and compares any two of the elements. -/
theorem sortSlice_eq_of_perm {α : Type} (less : α → α → Bool)
    (htrans : ∀ a b c, less a b = true → less b c = true → less a c = true)
    (hasymm : ∀ a b, less a b = true → less b a = true → False)
    (s t : List α) (hperm : s.Perm t)
    (hcmp : s.Pairwise (fun a b => less a b = true ∨ less b a = true)) :
    sortSlice less s = sortSlice less t := by
  have hs := sortSlice_sorted less htrans s hcmp
  have ht := sortSlice_sorted less htrans t ((hperm.pairwise_iff (fun h => Or.symm h)).1 hcmp)
  haveI : IsAntisymm α (fun a b => less a b = true) :=
    ⟨fun a b hab hba => (hasymm a b hab hba).elim⟩
  exact List.eq_of_perm_of_sorted
    (((sortSlice_perm less s).trans hperm).trans (sortSlice_perm less t).symm) hs ht

/-! ## Member and score sequences -/

theorem convertEntries_scoreMap (l : List (String × F64)) :
    mapConverter.convertEntries F64 (l.map (fun kv => (kv.1, Reply.float64 kv.2))) = .ok l := by
  induction l with
  | nil => rfl
  | cons kv l ih =>
    simp only [List.map_cons, mapConverter.convertEntries, GoElem.assert, ih]

theorem convertMapOf_scoreMap (l : List (String × F64)) :
    ConvertMapOf F64 (scoreMap l) = .ret (some l) none := by
  simp only [ConvertMapOf, scoreMap, mapConverter.convert, convertEntries_scoreMap]

theorem makeConvert_scoreMap (reverse : Bool) (l : List (String × F64)) :
    MakeConvertMapOfMemberAndScore reverse (scoreMap l) =
      .ret (some (sortSlice (if reverse then lessReverse else lessForward)
        (l.map (fun kv => MemberAndScore.mk kv.1 kv.2)))) none := by
  unfold MakeConvertMapOfMemberAndScore
  rw [convertMapOf_scoreMap]
  cases reverse <;> rfl

theorem members_comparable (l : List (String × F64))
    (hkeys : (l.map Prod.fst).Nodup) (hnan : ∀ kv ∈ l, kv.2.isNaN = false) :
    (l.map (fun kv => MemberAndScore.mk kv.1 kv.2)).Pairwise
      (fun a b => lessForward a b = true ∨ lessForward b a = true) := by
  rw [List.pairwise_map]
  have hk : l.Pairwise (fun a b => a.1 ≠ b.1) := List.pairwise_map.1 hkeys
  have hall : l.Pairwise (fun a b => a.2.isNaN = false ∧ b.2.isNaN = false) :=
    List.pairwise_of_forall_mem_list (fun a ha b hb => ⟨hnan a ha, hnan b hb⟩)
  exact (hk.and hall).imp (fun h => lessForward_total _ _ h.2.1 h.2.2 h.1)

theorem lessReverse_trans (a b c : MemberAndScore)
    (hab : lessReverse a b = true) (hbc : lessReverse b c = true) :
    lessReverse a c = true := by
  rw [lessReverse_eq] at *
  exact lessForward_trans _ _ _ hbc hab

theorem lessReverse_asymm (a b : MemberAndScore)
    (hab : lessReverse a b = true) (hba : lessReverse b a = true) : False := by
  rw [lessReverse_eq] at *
  exact lessForward_asymm _ _ hba hab

theorem members_comparable_reverse (l : List (String × F64))
    (hkeys : (l.map Prod.fst).Nodup) (hnan : ∀ kv ∈ l, kv.2.isNaN = false) :
    (l.map (fun kv => MemberAndScore.mk kv.1 kv.2)).Pairwise
      (fun a b => lessReverse a b = true ∨ lessReverse b a = true) := by
  refine (members_comparable l hkeys hnan).imp ?_
  intro a b h
  rw [lessReverse_eq, lessReverse_eq]
  exact h.symm

theorem scoreOrdered_of_less (out : List MemberAndScore) :
    (out.Pairwise (fun a b => lessForward a b = true) → ScoreOrdered false out) ∧
    (out.Pairwise (fun a b => lessReverse a b = true) → ScoreOrdered true out) := by
  constructor
  · intro h
    refine (List.Pairwise.chain' h).imp ?_
    intro a b hab
    rw [lessForward_iff] at hab
    obtain ⟨ha, hb, hk | ⟨hk, hm⟩⟩ := hab
    · exact Or.inl ((F64.lt_iff _ _).2 ⟨ha, hb, hk⟩)
    · exact Or.inr ⟨(F64.eq_iff _ _).2 ⟨ha, hb, hk⟩, hm⟩
  · intro h
    refine (List.Pairwise.chain' h).imp ?_
    intro a b hab
    rw [lessReverse_eq, lessForward_iff] at hab
    obtain ⟨hb, ha, hk | ⟨hk, hm⟩⟩ := hab
    · exact Or.inl ((F64.lt_iff _ _).2 ⟨hb, ha, hk⟩)
    · exact Or.inr ⟨(F64.eq_iff _ _).2 ⟨ha, hb, hk.symm⟩, hm⟩

/-- C1, as amended: for a reply map from member to score with distinct keys and no NaN
score, and for each value of the reverse flag, the converter returns a sequence with no
error in which every adjacent pair is ordered by score and then by member, ascending
for `reverse = false` and descending for `reverse = true`. -/
theorem memberAndScore_sorted (reverse : Bool) (l : List (String × F64))
    (hkeys : (l.map Prod.fst).Nodup) (hnan : ∀ kv ∈ l, kv.2.isNaN = false) :
    ∃ out, MakeConvertMapOfMemberAndScore reverse (scoreMap l) = .ret (some out) none ∧
      ScoreOrdered reverse out := by
  refine ⟨_, makeConvert_scoreMap reverse l, ?_⟩
  cases reverse
  · exact (scoreOrdered_of_less _).1
      (sortSlice_sorted lessForward lessForward_trans _ (members_comparable l hkeys hnan))
  · exact (scoreOrdered_of_less _).2
      (sortSlice_sorted lessReverse lessReverse_trans _
        (members_comparable_reverse l hkeys hnan))

/-- Witness of `memberAndScore_sorted` on the map `{b: 1.0, a: 1.0, c: 2.0}`. -/
theorem memberAndScore_sorted_witness :
    ∃ out, MakeConvertMapOfMemberAndScore false
        (scoreMap [("b", F64.one), ("a", F64.one), ("c", F64.two)]) = .ret (some out) none ∧
      ScoreOrdered false out :=
  memberAndScore_sorted false [("b", F64.one), ("a", F64.one), ("c", F64.two)]
    (by decide) (by decide)

/-- C1 fails as stated: on the map `{a: NaN, b: 1.0}` the forward converter returns
`[a, b]`, and `NaN < 1.0` and `NaN == 1.0` are both false. -/
theorem memberAndScore_sorted_counterexample :
    ¬ ∃ out, MakeConvertMapOfMemberAndScore false
        (scoreMap [("a", F64.nan), ("b", F64.one)]) = .ret (some out) none ∧
      ScoreOrdered false out := by
  rintro ⟨out, hout, hord⟩
  have hrun : MakeConvertMapOfMemberAndScore false
      (scoreMap [("a", F64.nan), ("b", F64.one)]) =
      .ret (some [⟨"a", F64.nan⟩, ⟨"b", F64.one⟩]) none := by decide
  rw [hrun] at hout
  injection hout with hval _
  injection hval with hval
  subst hval
  have hlt : F64.lt F64.nan F64.one = false := by decide
  have heq : F64.eq F64.nan F64.one = false := by decide
  simp [ScoreOrdered, hlt, heq] at hord

/-- C2, as amended: two listings of the same map with distinct keys and no NaN score,
one a permutation of the other, are converted to the same sequence, for each value of
the reverse flag. -/
theorem memberAndScore_order_independent (reverse : Bool) (l₁ l₂ : List (String × F64))
    (hperm : l₁.Perm l₂) (hkeys : (l₁.map Prod.fst).Nodup)
    (hnan : ∀ kv ∈ l₁, kv.2.isNaN = false) :
    MakeConvertMapOfMemberAndScore reverse (scoreMap l₁) =
      MakeConvertMapOfMemberAndScore reverse (scoreMap l₂) := by
  rw [makeConvert_scoreMap, makeConvert_scoreMap]
  have hp := hperm.map (fun kv : String × F64 => MemberAndScore.mk kv.1 kv.2)
  cases reverse
  · simp only [Bool.false_eq_true, if_false]
    rw [sortSlice_eq_of_perm lessForward lessForward_trans lessForward_asymm _ _ hp
      (members_comparable l₁ hkeys hnan)]
  · simp only [if_true]
    rw [sortSlice_eq_of_perm lessReverse lessReverse_trans lessReverse_asymm _ _ hp
      (members_comparable_reverse l₁ hkeys hnan)]

/-- Witness of `memberAndScore_order_independent` on two listings of `{b: 1.0, a: 1.0}`. -/
theorem memberAndScore_order_independent_witness :
    MakeConvertMapOfMemberAndScore true (scoreMap [("b", F64.one), ("a", F64.one)]) =
      MakeConvertMapOfMemberAndScore true (scoreMap [("a", F64.one), ("b", F64.one)]) :=
  memberAndScore_order_independent true [("b", F64.one), ("a", F64.one)]
    [("a", F64.one), ("b", F64.one)] (List.Perm.swap _ _ _) (by decide) (by decide)

/-- C2 fails as stated: the two listings of the map `{a: NaN, b: 1.0}` are converted to
different sequences, each left in its listing order. -/
theorem memberAndScore_order_independent_counterexample :
    [("a", F64.nan), ("b", F64.one)].Perm [("b", F64.one), ("a", F64.nan)] ∧
    MakeConvertMapOfMemberAndScore false (scoreMap [("a", F64.nan), ("b", F64.one)]) =
      .ret (some [⟨"a", F64.nan⟩, ⟨"b", F64.one⟩]) none ∧
    MakeConvertMapOfMemberAndScore false (scoreMap [("b", F64.one), ("a", F64.nan)]) =
      .ret (some [⟨"b", F64.one⟩, ⟨"a", F64.nan⟩]) none ∧
    MakeConvertMapOfMemberAndScore false (scoreMap [("a", F64.nan), ("b", F64.one)]) ≠
      MakeConvertMapOfMemberAndScore false (scoreMap [("b", F64.one), ("a", F64.nan)]) :=
  ⟨List.Perm.swap _ _ _, by decide, by decide, by decide⟩

/-! ## Stream entries -/

theorem lessEntry_iff (reverse : Bool) (a b : StreamEntry) :
    lessEntry reverse a b = true ↔ if reverse then b.ID < a.ID else a.ID < b.ID := by
  cases reverse <;> simp [lessEntry, strLess_iff]

theorem lessEntry_trans (reverse : Bool) (a b c : StreamEntry)
    (hab : lessEntry reverse a b = true) (hbc : lessEntry reverse b c = true) :
    lessEntry reverse a c = true := by
  rw [lessEntry_iff] at *
  cases reverse
  · exact lt_trans hab hbc
  · exact lt_trans hbc hab

theorem lessEntry_asymm (reverse : Bool) (a b : StreamEntry)
    (hab : lessEntry reverse a b = true) (hba : lessEntry reverse b a = true) : False := by
  rw [lessEntry_iff] at *
  cases reverse
  · exact lt_asymm hab hba
  · exact lt_asymm hab hba

theorem entries_comparable (fieldInfo : Reply → List FieldValue) (reverse : Bool)
    (l : List (String × Reply)) (hkeys : (l.map Prod.fst).Nodup) :
    (l.map (fun kv => StreamEntry.mk kv.1 (fieldInfo kv.2))).Pairwise
      (fun a b => lessEntry reverse a b = true ∨ lessEntry reverse b a = true) := by
  rw [List.pairwise_map]
  have hk : l.Pairwise (fun a b => a.1 ≠ b.1) := List.pairwise_map.1 hkeys
  refine hk.imp ?_
  intro a b hne
  rw [lessEntry_iff, lessEntry_iff]
  cases reverse
  · exact lt_or_gt_of_ne hne
  · exact (lt_or_gt_of_ne hne).symm

/-- C3: for a reply map from entry ID to field data with distinct keys, the forward
converter returns, with no error, exactly one entry per map entry with the IDs strictly
ascending, the reverse converter returns them strictly descending, and any other
listing of the same map gives the same two results. -/
theorem streamEntryArray_sorted (fieldInfo : Reply → List FieldValue)
    (l l' : List (String × Reply)) (hkeys : (l.map Prod.fst).Nodup) (hperm : l'.Perm l) :
    ∃ asc desc,
      MakeConvertStreamEntryArray fieldInfo false (.map l) = .ret (some asc) none ∧
      MakeConvertStreamEntryArray fieldInfo true (.map l) = .ret (some desc) none ∧
      asc.Perm (l.map (fun kv => StreamEntry.mk kv.1 (fieldInfo kv.2))) ∧
      desc.Perm (l.map (fun kv => StreamEntry.mk kv.1 (fieldInfo kv.2))) ∧
      asc.Pairwise (fun x y => x.ID < y.ID) ∧
      desc.Pairwise (fun x y => x.ID > y.ID) ∧
      MakeConvertStreamEntryArray fieldInfo false (.map l') = .ret (some asc) none ∧
      MakeConvertStreamEntryArray fieldInfo true (.map l') = .ret (some desc) none := by
  have hp := hperm.map (fun kv : String × Reply => StreamEntry.mk kv.1 (fieldInfo kv.2))
  have hkeys' : (l'.map Prod.fst).Nodup := ((hperm.map Prod.fst).nodup_iff).2 hkeys
  refine ⟨_, _, rfl, rfl, sortSlice_perm _ _, sortSlice_perm _ _, ?_, ?_, ?_, ?_⟩
  · exact (sortSlice_sorted (lessEntry false) (lessEntry_trans false) _
      (entries_comparable fieldInfo false l hkeys)).imp
      (fun h => by simpa using (lessEntry_iff false _ _).1 h)
  · exact (sortSlice_sorted (lessEntry true) (lessEntry_trans true) _
      (entries_comparable fieldInfo true l hkeys)).imp
      (fun h => by simpa using (lessEntry_iff true _ _).1 h)
  · simp only [MakeConvertStreamEntryArray]
    rw [sortSlice_eq_of_perm (lessEntry false) (lessEntry_trans false) (lessEntry_asymm false)
      _ _ hp (entries_comparable fieldInfo false l' hkeys')]
  · simp only [MakeConvertStreamEntryArray]
    rw [sortSlice_eq_of_perm (lessEntry true) (lessEntry_trans true) (lessEntry_asymm true)
      _ _ hp (entries_comparable fieldInfo true l' hkeys')]

/-- Witness of `streamEntryArray_sorted` on the map `{"2-0": nil, "1-0": nil}` and its
other listing. -/
theorem streamEntryArray_sorted_witness :
    ∃ asc desc,
      MakeConvertStreamEntryArray (fun _ => []) false
        (.map [("2-0", .nil), ("1-0", .nil)]) = .ret (some asc) none ∧
      MakeConvertStreamEntryArray (fun _ => []) true
        (.map [("2-0", .nil), ("1-0", .nil)]) = .ret (some desc) none ∧
      asc.Perm ([("2-0", Reply.nil), ("1-0", Reply.nil)].map
        (fun kv => StreamEntry.mk kv.1 ((fun _ => []) kv.2))) ∧
      desc.Perm ([("2-0", Reply.nil), ("1-0", Reply.nil)].map
        (fun kv => StreamEntry.mk kv.1 ((fun _ => []) kv.2))) ∧
      asc.Pairwise (fun x y => x.ID < y.ID) ∧
      desc.Pairwise (fun x y => x.ID > y.ID) ∧
      MakeConvertStreamEntryArray (fun _ => []) false
        (.map [("1-0", .nil), ("2-0", .nil)]) = .ret (some asc) none ∧
      MakeConvertStreamEntryArray (fun _ => []) true
        (.map [("1-0", .nil), ("2-0", .nil)]) = .ret (some desc) none :=
  streamEntryArray_sorted (fun _ => []) [("2-0", .nil), ("1-0", .nil)]
    [("1-0", .nil), ("2-0", .nil)] (by decide) (List.Perm.swap _ _ _)

/-! ## The type-checked dispatcher -/

/-- C4, as amended: for every expected kind other than `pointer`, the kind of the
sentinel itself, every nilability flag and every converter, an Error-sentinel reply is
returned unchanged as the value with no error, whatever the converter does. -/
theorem converterAndTypeChecker_error {β : Type} (msg : String) (expectedType : Kind)
    (isNilable : Bool) (converter : Reply → GoRet β) (hkind : expectedType ≠ Kind.pointer) :
    ConverterAndTypeChecker (.error msg) expectedType isNilable converter =
      .ret (some (Checked.passthrough (.error msg))) none := by
  simp only [ConverterAndTypeChecker, Reply.goType, GoType.Kind]
  rw [if_neg (fun h => hkind h.symm), if_pos trivial]

/-- Witness of `converterAndTypeChecker_error` with expected kind `map` and a converter
that aborts. -/
theorem converterAndTypeChecker_error_witness :
    ConverterAndTypeChecker (.error "ERR") Kind.map false
        (fun _ => (GoRet.abort : GoRet Unit)) =
      .ret (some (Checked.passthrough (.error "ERR"))) none :=
  converterAndTypeChecker_error "ERR" Kind.map false (fun _ => GoRet.abort) (by decide)

/-- C4 fails as stated: with expected kind `pointer` the sentinel is handed to the
converter, and the converter's error comes back in place of the sentinel. -/
theorem converterAndTypeChecker_error_counterexample :
    ConverterAndTypeChecker (.error "ERR") Kind.pointer false
        (fun _ => (GoRet.ret none (some (.other "converter ran")) : GoRet Unit)) =
      .ret none (some (.other "converter ran")) ∧
    ConverterAndTypeChecker (.error "ERR") Kind.pointer false
        (fun _ => (GoRet.ret none (some (.other "converter ran")) : GoRet Unit)) ≠
      .ret (some (Checked.passthrough (.error "ERR"))) none := by
  have hrun : ConverterAndTypeChecker (.error "ERR") Kind.pointer false
      (fun _ => (GoRet.ret none (some (.other "converter ran")) : GoRet Unit)) =
      .ret none (some (.other "converter ran")) := rfl
  refine ⟨hrun, ?_⟩
  rw [hrun]
  intro h
  injection h with hval _
  cases hval

/-- C5: for every expected kind and every converter, a `nil` reply gives the absent
value with no error under the nilable flag, and the error "got nil, expected kind" with
no value otherwise; the converter plays no part in either result. -/
theorem converterAndTypeChecker_nil {β : Type} (expectedType : Kind)
    (converter : Reply → GoRet β) :
    ConverterAndTypeChecker .nil expectedType true converter = .ret none none ∧
    ConverterAndTypeChecker .nil expectedType false converter =
      .ret none (some (.gotNil expectedType)) :=
  ⟨rfl, rfl⟩

/-- C6: a reply that is neither `nil` nor an Error sentinel has a dynamic type. When the
kind of that type is the expected kind, the dispatcher returns exactly what the converter
returns on the reply: it aborts when the converter aborts, it returns no value and the
converter's error when the converter returns no value, and it returns the converter's
value and the converter's error when the converter returns a value. Otherwise it returns
no value and an error carrying the observed type and the expected kind, whatever the
converter does. -/
theorem converterAndTypeChecker_other {β : Type} (data : Reply) (expectedType : Kind)
    (isNilable : Bool) (converter : Reply → GoRet β)
    (hnil : data ≠ .nil) (herr : ∀ msg, data ≠ .error msg) :
    ∃ ty, data.goType = some ty ∧
      (ty.Kind = expectedType →
        (converter data = .abort →
          ConverterAndTypeChecker data expectedType isNilable converter = .abort) ∧
        (∀ e, converter data = .ret none e →
          ConverterAndTypeChecker data expectedType isNilable converter = .ret none e) ∧
        (∀ v e, converter data = .ret (some v) e →
          ConverterAndTypeChecker data expectedType isNilable converter =
            .ret (some (Checked.converted v)) e)) ∧
      (ty.Kind ≠ expectedType →
        ConverterAndTypeChecker data expectedType isNilable converter =
          .ret none (some (.gotType ty expectedType))) := by
  have hty : ∃ ty, data.goType = some ty ∧ ty ≠ GoType.errorString := by
    cases data with
    | nil => exact absurd rfl hnil
    | error msg => exact absurd rfl (herr msg)
    | bool b => exact ⟨_, rfl, by decide⟩
    | int64 i => exact ⟨_, rfl, by decide⟩
    | float64 f => exact ⟨_, rfl, by decide⟩
    | str s => exact ⟨_, rfl, by decide⟩
    | arr xs => exact ⟨_, rfl, by decide⟩
    | map kvs => exact ⟨_, rfl, by decide⟩
    | set keys => exact ⟨_, rfl, by decide⟩
    | strs xs => exact ⟨_, rfl, by decide⟩
  obtain ⟨ty, hgo, hne⟩ := hty
  refine ⟨ty, hgo, ?_, ?_⟩
  · intro hk
    refine ⟨?_, ?_, ?_⟩
    · intro hc
      simp only [ConverterAndTypeChecker, hgo, if_pos hk, hc, GoRet.map]
    · intro e hc
      simp only [ConverterAndTypeChecker, hgo, if_pos hk, hc, GoRet.map, Option.map_none']
    · intro v e hc
      simp only [ConverterAndTypeChecker, hgo, if_pos hk, hc, GoRet.map, Option.map_some']
  · intro hk
    simp only [ConverterAndTypeChecker, hgo, if_neg hk, if_neg hne]

/-- Witness of `converterAndTypeChecker_other` on the string reply `"v"`: with expected
kind `string` and a converter returning the value `7` together with an error, the
dispatcher returns the value `7` and that error; with a converter returning no value it
returns no value; with a converter that aborts it aborts; and with expected kind `map` it
returns the type error without the converter. -/
theorem converterAndTypeChecker_other_witness :
    ConverterAndTypeChecker (Reply.str "v") Kind.string false
        (fun _ => (GoRet.ret (some (7 : Nat)) (some (.other "warn")))) =
      .ret (some (Checked.converted 7)) (some (.other "warn")) ∧
    ConverterAndTypeChecker (Reply.str "v") Kind.string false
        (fun _ => (GoRet.ret none (some (.other "failed")) : GoRet Nat)) =
      .ret none (some (.other "failed")) ∧
    ConverterAndTypeChecker (Reply.str "v") Kind.string false
        (fun _ => (GoRet.abort : GoRet Nat)) = .abort ∧
    ConverterAndTypeChecker (Reply.str "v") Kind.map false
        (fun _ => (GoRet.abort : GoRet Nat)) =
      .ret none (some (.gotType GoType.string Kind.map)) := by
  refine ⟨?_, ?_, ?_, ?_⟩
  · obtain ⟨ty, hty, hmatch, _⟩ := converterAndTypeChecker_other (Reply.str "v")
      Kind.string false (fun _ => (GoRet.ret (some (7 : Nat)) (some (.other "warn"))))
      (fun h => Reply.noConfusion h) (fun _ h => Reply.noConfusion h)
    cases hty
    exact (hmatch rfl).2.2 7 _ rfl
  · obtain ⟨ty, hty, hmatch, _⟩ := converterAndTypeChecker_other (Reply.str "v")
      Kind.string false (fun _ => (GoRet.ret none (some (.other "failed")) : GoRet Nat))
      (fun h => Reply.noConfusion h) (fun _ h => Reply.noConfusion h)
    cases hty
    exact (hmatch rfl).2.1 _ rfl
  · obtain ⟨ty, hty, hmatch, _⟩ := converterAndTypeChecker_other (Reply.str "v")
      Kind.string false (fun _ => (GoRet.abort : GoRet Nat))
      (fun h => Reply.noConfusion h) (fun _ h => Reply.noConfusion h)
    cases hty
    exact (hmatch rfl).1 rfl
  · obtain ⟨ty, hty, _, hother⟩ := converterAndTypeChecker_other (Reply.str "v")
      Kind.map false (fun _ => (GoRet.abort : GoRet Nat))
      (fun h => Reply.noConfusion h) (fun _ h => Reply.noConfusion h)
    cases hty
    exact hother (by decide)

/-! ## Autoclaim replies -/

/-- C7: on an array reply of length below 2 or above 3 both autoclaim converters return
no value and the array-length error, whatever the elements of the array are. -/
theorem autoClaim_length_error (fieldInfo : Reply → List FieldValue) (arr : List Reply)
    (hlen : arr.length < 2 ∨ arr.length > 3) :
    ConvertXAutoClaimResponse fieldInfo (.arr arr) =
      .ret none (some (.arrayLength arr.length)) ∧
    ConvertXAutoClaimJustIdResponse (.arr arr) =
      .ret none (some (.arrayLength arr.length)) := by
  constructor
  · simp only [ConvertXAutoClaimResponse, if_pos hlen]
  · simp only [ConvertXAutoClaimJustIdResponse, if_pos hlen]

/-- Witness of `autoClaim_length_error` on an array of four elements. -/
theorem autoClaim_length_error_witness :
    ConvertXAutoClaimResponse (fun _ => []) (.arr [.str "0-0", .map [], .arr [], .nil]) =
      .ret none (some (.arrayLength [Reply.str "0-0", .map [], .arr [], .nil].length)) ∧
    ConvertXAutoClaimJustIdResponse (.arr [.str "0-0", .map [], .arr [], .nil]) =
      .ret none (some (.arrayLength [Reply.str "0-0", .map [], .arr [], .nil].length)) :=
  autoClaim_length_error (fun _ => []) [.str "0-0", .map [], .arr [], .nil]
    (Or.inr (by decide))

theorem convertElems_strings (l : List String) :
    arrayConverter.convertElems String (l.map Reply.str) = .ok l := by
  induction l with
  | nil => rfl
  | cons s l ih =>
    simp only [List.map_cons, arrayConverter.convertElems, GoElem.assert, ih]

theorem arrayConverter_strings (l : List String) :
    arrayConverter.convert String false (.arr (l.map Reply.str)) = .ret (some l) none := by
  simp only [arrayConverter.convert, convertElems_strings]

/-- On a reply `[next_id, entries]` or `[next_id, entries, deleted]` with `next_id` a
string, `entries` a map with distinct keys and `deleted` an array of strings, the
autoclaim converter succeeds; `NextEntry` is `next_id`, `ClaimedEntries` holds one entry
per map entry, strictly ascending in the byte order of the ID strings, and
`DeletedMessages` is absent for the array of length 2 and the strings of `deleted` in
source order for the array of length 3. -/
theorem autoClaim_well_shaped (fieldInfo : Reply → List FieldValue) (nextId : String)
    (entries : List (String × Reply)) (deleted : List String)
    (hkeys : (entries.map Prod.fst).Nodup) :
    ∃ claimed,
      ConvertXAutoClaimResponse fieldInfo (.arr [.str nextId, .map entries]) =
        .ret (some ⟨nextId, claimed, none⟩) none ∧
      ConvertXAutoClaimResponse fieldInfo
          (.arr [.str nextId, .map entries, .arr (deleted.map Reply.str)]) =
        .ret (some ⟨nextId, claimed, some deleted⟩) none ∧
      claimed.Perm (entries.map (fun kv => StreamEntry.mk kv.1 (fieldInfo kv.2))) ∧
      claimed.Pairwise (fun x y => x.ID < y.ID) := by
  refine ⟨sortSlice (lessEntry false)
    (entries.map (fun kv => StreamEntry.mk kv.1 (fieldInfo kv.2))), ?_, ?_,
    sortSlice_perm _ _, ?_⟩
  · simp [ConvertXAutoClaimResponse, MakeConvertStreamEntryArray, autoClaimDeleted,
      assertString]
  · simp [ConvertXAutoClaimResponse, MakeConvertStreamEntryArray, autoClaimDeleted,
      assertString, arrayConverter_strings]
  · exact (sortSlice_sorted (lessEntry false) (lessEntry_trans false) _
      (entries_comparable fieldInfo false entries hkeys)).imp
      (fun h => by simpa using (lessEntry_iff false _ _).1 h)

/-- The instance of `autoClaim_well_shaped` on `["0-0", {"2-0": nil, "1-0": nil}]` and on
the same reply extended by the deleted IDs `["1-1", "2-2"]`. -/
theorem autoClaim_well_shaped_witness :
    ∃ claimed,
      ConvertXAutoClaimResponse (fun _ => [])
          (.arr [.str "0-0", .map [("2-0", .nil), ("1-0", .nil)]]) =
        .ret (some ⟨"0-0", claimed, none⟩) none ∧
      ConvertXAutoClaimResponse (fun _ => [])
          (.arr [.str "0-0", .map [("2-0", .nil), ("1-0", .nil)],
            .arr (["1-1", "2-2"].map Reply.str)]) =
        .ret (some ⟨"0-0", claimed, some ["1-1", "2-2"]⟩) none ∧
      claimed.Perm ([("2-0", Reply.nil), ("1-0", Reply.nil)].map
        (fun kv => StreamEntry.mk kv.1 ((fun _ => []) kv.2))) ∧
      claimed.Pairwise (fun x y => x.ID < y.ID) :=
  autoClaim_well_shaped (fun _ => []) "0-0" [("2-0", .nil), ("1-0", .nil)] ["1-1", "2-2"]
    (by decide)

/-- C8, the behaviour of the code: on `["0-0", {"1-9": nil, "1-10": nil}]`, in either
listing of the map, and on the same reply extended by the deleted IDs `["1-1"]`, the
converter succeeds with `NextEntry = "0-0"` and the deleted messages as given, but the
claimed entries come out as `[1-10, 1-9]`, while the stream orders `1-9`, of key
`(1, 9)`, before `1-10`, of key `(1, 10)`. -/
theorem autoClaim_claimed_in_string_order :
    ConvertXAutoClaimResponse (fun _ => [])
        (.arr [.str "0-0", .map [("1-9", .nil), ("1-10", .nil)]]) =
      .ret (some ⟨"0-0", [⟨"1-10", []⟩, ⟨"1-9", []⟩], none⟩) none ∧
    ConvertXAutoClaimResponse (fun _ => [])
        (.arr [.str "0-0", .map [("1-10", .nil), ("1-9", .nil)]]) =
      .ret (some ⟨"0-0", [⟨"1-10", []⟩, ⟨"1-9", []⟩], none⟩) none ∧
    ConvertXAutoClaimResponse (fun _ => [])
        (.arr [.str "0-0", .map [("1-9", .nil), ("1-10", .nil)], .arr [.str "1-1"]]) =
      .ret (some ⟨"0-0", [⟨"1-10", []⟩, ⟨"1-9", []⟩], some ["1-1"]⟩) none ∧
    streamIdKey "1-9" = some (1, 9) ∧ streamIdKey "1-10" = some (1, 10) :=
  ⟨by rfl, by rfl, by rfl, by rfl, by rfl⟩

/-! ## Nilable arrays -/

theorem convertArrayOfNilOr_loop_ok (T : Type) [GoElem T] [LawfulGoElem T]
    (arr : List Reply) (helem : ∀ x ∈ arr, x = Reply.nil ∨ ∃ v : T, x = GoElem.box v) :
    ∃ res, ConvertArrayOfNilOr.loop T arr = .ok res ∧ res.length = arr.length ∧
      ∀ i : Nat, (res[i]? = some Result.Absent ↔ arr[i]? = some Reply.nil) ∧
        ∀ v : T, arr[i]? = some (GoElem.box v) → res[i]? = some (Result.Present v) := by
  induction arr with
  | nil => exact ⟨[], rfl, rfl, fun i => by simp⟩
  | cons x rest ih =>
    obtain ⟨res, hres, hlen, hpos⟩ := ih (fun y hy => helem y (List.mem_cons_of_mem _ hy))
    rcases helem x (List.mem_cons_self _ _) with hx | ⟨v, hx⟩
    · subst hx
      refine ⟨Result.Absent :: res, by simp [ConvertArrayOfNilOr.loop, hres], by simp [hlen], ?_⟩
      intro i
      cases i with
      | zero =>
        refine ⟨by simp, ?_⟩
        intro v hv
        simp only [List.getElem?_cons_zero, Option.some.injEq] at hv
        exact absurd hv.symm (LawfulGoElem.box_ne_nil v)
      | succ i => simpa using hpos i
    · subst hx
      have hrun : ConvertArrayOfNilOr.loop T (GoElem.box v :: rest) =
          .ok (Result.Present v :: res) := by
        have hne := LawfulGoElem.box_ne_nil v
        unfold ConvertArrayOfNilOr.loop
        split
        · rename_i heq
          exact absurd heq hne
        · simp [LawfulGoElem.assert_box, hres]
      refine ⟨Result.Present v :: res, hrun, by simp [hlen], ?_⟩
      intro i
      cases i with
      | zero =>
        refine ⟨?_, ?_⟩
        · simp only [List.getElem?_cons_zero, Option.some.injEq]
          constructor
          · intro h
            cases h
          · intro h
            exact absurd h (LawfulGoElem.box_ne_nil v)
        · intro w hw
          simp only [List.getElem?_cons_zero, Option.some.injEq] at hw ⊢
          have h1 := LawfulGoElem.assert_box v
          rw [hw, LawfulGoElem.assert_box w] at h1
          simp only [Option.some.injEq] at h1
          rw [h1]
      | succ i => simpa using hpos i

/-- C9: on an array each of whose elements is `nil` or a boxed value of type `T`, the
nilable-array converter succeeds with a sequence of the same length; position `i` of the
result is `Absent` exactly when position `i` of the input is `nil`, and is `Present v`
when position `i` of the input is the value `v`. -/
theorem convertArrayOfNilOr_ok (T : Type) [GoElem T] [LawfulGoElem T] (arr : List Reply)
    (helem : ∀ x ∈ arr, x = Reply.nil ∨ ∃ v : T, x = GoElem.box v) :
    ∃ res, ConvertArrayOfNilOr T (.arr arr) = .ret (some res) none ∧
      res.length = arr.length ∧
      ∀ i : Nat, (res[i]? = some Result.Absent ↔ arr[i]? = some Reply.nil) ∧
        ∀ v : T, arr[i]? = some (GoElem.box v) → res[i]? = some (Result.Present v) := by
  obtain ⟨res, hres, hlen, hpos⟩ := convertArrayOfNilOr_loop_ok T arr helem
  exact ⟨res, by simp only [ConvertArrayOfNilOr, hres], hlen, hpos⟩

/-- Witness of `convertArrayOfNilOr_ok` on the array `["a", nil, "b"]` with `T = string`. -/
theorem convertArrayOfNilOr_ok_witness :
    ∃ res, ConvertArrayOfNilOr String (.arr [.str "a", .nil, .str "b"]) =
        .ret (some res) none ∧
      res.length = [Reply.str "a", .nil, .str "b"].length ∧
      ∀ i : Nat, (res[i]? = some Result.Absent ↔
          [Reply.str "a", .nil, .str "b"][i]? = some Reply.nil) ∧
        ∀ v : String, [Reply.str "a", .nil, .str "b"][i]? = some (GoElem.box v) →
          res[i]? = some (Result.Present v) :=
  convertArrayOfNilOr_ok String [.str "a", .nil, .str "b"] (by
    intro x hx
    simp only [List.mem_cons, List.mem_singleton, List.not_mem_nil, or_false] at hx
    rcases hx with rfl | rfl | rfl
    · exact Or.inr ⟨"a", rfl⟩
    · exact Or.inl rfl
    · exact Or.inr ⟨"b", rfl⟩)

/-- The loop fails with the same error wherever the first offending element stands: both
arguments of the message are the type `T`. -/
theorem convertArrayOfNilOr_loop_error (T : Type) [GoElem T] (arr : List Reply)
    (hbad : ∃ x ∈ arr, x ≠ Reply.nil ∧ GoElem.assert (T := T) x = none) :
    ConvertArrayOfNilOr.loop T arr =
      .error (.unexpectedType (GoElem.goType T) (GoElem.goType T)) := by
  induction arr with
  | nil =>
    obtain ⟨x, hx, _⟩ := hbad
    cases hx
  | cons y rest ih =>
    by_cases hy : y ≠ Reply.nil ∧ GoElem.assert (T := T) y = none
    · unfold ConvertArrayOfNilOr.loop
      split
      · exact absurd rfl hy.1
      · simp [hy.2]
    · have hrest : ∃ x ∈ rest, x ≠ Reply.nil ∧ GoElem.assert (T := T) x = none := by
        obtain ⟨x, hx, hxb⟩ := hbad
        rcases List.mem_cons.1 hx with rfl | hx
        · exact absurd hxb hy
        · exact ⟨x, hx, hxb⟩
      have hih := ih hrest
      unfold ConvertArrayOfNilOr.loop
      split
      · simp [hih]
      · split
        · simp [hih]
        · rfl

/-- C10, the behaviour of the code: on the array `[int64 5]` with `T = string` the
converter returns no value and an error whose two arguments are both `string`; the
observed type `int64` is not in it. -/
theorem convertArrayOfNilOr_mismatch_names_T_twice :
    ConvertArrayOfNilOr String (.arr [.int64 5]) =
        .ret none (some (.unexpectedType GoType.string GoType.string)) ∧
    (Reply.int64 5).goType = some GoType.int64 ∧
    GoError.unexpectedType GoType.string GoType.string ≠
      GoError.unexpectedType GoType.int64 GoType.string :=
  ⟨rfl, rfl, by decide⟩

/-! ## Pending summary -/

theorem decimalDigit_digitChar (d : Nat) (hd : d < 10) :
    decimalDigit (Nat.digitChar d) = some d := by
  interval_cases d <;> rfl

theorem digitChar_ne_sign (d : Nat) (hd : d < 10) :
    Nat.digitChar d ≠ '+' ∧ Nat.digitChar d ≠ '-' := by
  interval_cases d <;> decide

theorem foldl_digits_ge (digits : List Nat) (n : Nat) :
    n ≤ digits.foldl (fun n d => n * 10 + d) n := by
  induction digits generalizing n with
  | nil => exact Nat.le_refl _
  | cons d rest ih =>
    simp only [List.foldl_cons]
    exact Nat.le_trans (by omega) (ih (n * 10 + d))

theorem parseUintLoop_digits (digits : List Nat) (n : Nat)
    (hdigit : ∀ d ∈ digits, d < 10)
    (hmax : digits.foldl (fun n d => n * 10 + d) n ≤ 18446744073709551615) :
    parseUintLoop n (digits.map Nat.digitChar) =
      some (some (digits.foldl (fun n d => n * 10 + d) n)) := by
  induction digits generalizing n with
  | nil => rfl
  | cons d rest ih =>
    simp only [List.foldl_cons] at hmax
    have hstep : ¬ n * 10 + d > 18446744073709551615 := by
      have := foldl_digits_ge rest (n * 10 + d)
      omega
    simp only [List.map_cons, parseUintLoop,
      decimalDigit_digitChar d (hdigit d (List.mem_cons_self _ _)), if_neg hstep,
      List.foldl_cons]
    exact ih (n * 10 + d) (fun e he => hdigit e (List.mem_cons_of_mem _ he)) hmax

theorem parseInt64_decimalText (neg : Bool) (digits : List Nat)
    (hne : digits ≠ []) (hdigit : ∀ d ∈ digits, d < 10)
    (hlo : -9223372036854775808 ≤ decimalValue neg digits)
    (hhi : decimalValue neg digits ≤ 9223372036854775807) :
    parseInt64 (decimalText neg digits) = .ok (decimalValue neg digits) := by
  obtain ⟨d, rest, rfl⟩ := List.exists_cons_of_ne_nil hne
  have hd := hdigit d (List.mem_cons_self _ _)
  have hsign := digitChar_ne_sign d hd
  cases neg with
  | false =>
    simp only [decimalValue, Bool.false_eq_true, if_false] at hlo hhi ⊢
    have hmax : (d :: rest).foldl (fun n d => n * 10 + d) 0 ≤ 18446744073709551615 := by
      omega
    have hloop := parseUintLoop_digits (d :: rest) 0 hdigit hmax
    simp only [List.map_cons] at hloop
    simp only [parseInt64, decimalText, Bool.false_eq_true, if_false, List.nil_append,
      List.map_cons, hsign.1, hsign.2, or_self, hloop, decide_False, Bool.false_eq_true,
      false_and, not_false_eq_true, true_and, ge_iff_le]
    rw [if_neg (by omega)]
  | true =>
    simp only [decimalValue, if_true] at hlo hhi ⊢
    have hmax : (d :: rest).foldl (fun n d => n * 10 + d) 0 ≤ 18446744073709551615 := by
      omega
    have hloop := parseUintLoop_digits (d :: rest) 0 hdigit hmax
    simp only [List.map_cons] at hloop
    simp only [parseInt64, decimalText, if_true, List.singleton_append, List.map_cons,
      or_true, hloop, decide_True, not_true_eq_false, false_and, if_false, true_and,
      gt_iff_lt]
    rw [if_neg (by omega)]

theorem rangeLoop_forall₂ {α β γ : Type} (body : α → Iter β) (sel : α → Option γ)
    (R : β → γ → Prop) (xs : List α)
    (h : ∀ x ∈ xs, (sel x = none ∧ body x = .skip) ∨
      ∃ c b, sel x = some c ∧ body x = .append b ∧ R b c) :
    ∃ out, rangeLoop body xs = .ret (some out) none ∧
      List.Forall₂ R out (xs.filterMap sel) := by
  induction xs with
  | nil => exact ⟨[], rfl, by simp⟩
  | cons x rest ih =>
    obtain ⟨out, hout, hrel⟩ := ih (fun y hy => h y (List.mem_cons_of_mem _ hy))
    rcases h x (List.mem_cons_self _ _) with ⟨hsel, hbody⟩ | ⟨c, b, hsel, hbody, hR⟩
    · refine ⟨out, ?_, ?_⟩
      · simp only [rangeLoop, hbody, hout]
      · simpa [List.filterMap_cons, hsel] using hrel
    · refine ⟨b :: out, ?_, ?_⟩
      · simp only [rangeLoop, hbody, hout]
      · simpa [List.filterMap_cons, hsel] using And.intro hR hrel

theorem rangeLoop_map {α β : Type} (body : α → Iter β) (f : α → β) (xs : List α)
    (h : ∀ x ∈ xs, body x = .append (f x)) :
    rangeLoop body xs = .ret (some (xs.map f)) none := by
  induction xs with
  | nil => rfl
  | cons x rest ih =>
    simp only [rangeLoop, h x (List.mem_cons_self _ _),
      ih (fun y hy => h y (List.mem_cons_of_mem _ hy)), List.map_cons]

theorem consumerMessages_loop (consumers : List (String × Bool × List Nat))
    (hnum : ∀ c ∈ consumers, c.2.2 ≠ [] ∧ (∀ d ∈ c.2.2, d < 10) ∧
      -9223372036854775808 ≤ decimalValue c.2.1 c.2.2 ∧
      decimalValue c.2.1 c.2.2 ≤ 9223372036854775807) :
    rangeLoop consumerMessageBody
        (consumers.map (fun c => Reply.arr [.str c.1, .str (decimalText c.2.1 c.2.2)])) =
      .ret (some (consumers.map
        (fun c => ConsumerPendingMessage.mk c.1 (decimalValue c.2.1 c.2.2)))) none := by
  induction consumers with
  | nil => rfl
  | cons c rest ih =>
    obtain ⟨h1, h2, h3, h4⟩ := hnum c (List.mem_cons_self _ _)
    simp [rangeLoop, consumerMessageBody, assertString,
      parseInt64_decimalText c.2.1 c.2.2 h1 h2 h3 h4,
      ih (fun y hy => hnum y (List.mem_cons_of_mem _ hy))]

/-- C11, as amended: on a reply `[count, start, end, consumers]` where `start` and `end`
are `nil` or a string and each consumer is a pair of a name and a decimal numeral (an
optional minus sign and at least one digit) whose value lies between `-2^63` and
`2^63 - 1`, the converter succeeds; `NumOfMessages` is `count`, `StartId` and `EndId` are
absent exactly for `nil` and hold the string otherwise, and `ConsumerMessages` lists the
consumers in source order, each with its name and the integer its numeral denotes. -/
theorem xpending_summary (count : Int) (start stop : Option String)
    (consumers : List (String × Bool × List Nat))
    (hnum : ∀ c ∈ consumers, c.2.2 ≠ [] ∧ (∀ d ∈ c.2.2, d < 10) ∧
      -9223372036854775808 ≤ decimalValue c.2.1 c.2.2 ∧
      decimalValue c.2.1 c.2.2 ≤ 9223372036854775807) :
    ConvertXPendingResponse
        (pendingReply count start stop
          (consumers.map (fun c => (c.1, decimalText c.2.1 c.2.2)))) =
      .ret (some ⟨count,
        (match start with | none => Result.Absent | some s => Result.Present s),
        (match stop with | none => Result.Absent | some s => Result.Present s),
        consumers.map (fun c => ⟨c.1, decimalValue c.2.1 c.2.2⟩)⟩) none := by
  have hloop := consumerMessages_loop consumers hnum
  cases start <;> cases stop <;>
    simp [ConvertXPendingResponse, pendingReply, optionalString, nilOrString,
      List.map_map, Function.comp_def, hloop]

/-- Witness of `xpending_summary` on the reply `[5, "1-1", "5-5", [["consumer1", "2"]]]`. -/
theorem xpending_summary_witness :
    ConvertXPendingResponse
        (pendingReply 5 (some "1-1") (some "5-5")
          ([("consumer1", false, [2])].map (fun c => (c.1, decimalText c.2.1 c.2.2)))) =
      .ret (some ⟨5,
        (match some "1-1" with | none => Result.Absent | some s => Result.Present s),
        (match some "5-5" with | none => Result.Absent | some s => Result.Present s),
        [("consumer1", false, [2])].map
          (fun c => ⟨c.1, decimalValue c.2.1 c.2.2⟩)⟩) none :=
  xpending_summary 5 (some "1-1") (some "5-5") [("consumer1", false, [2])] (by
    intro c hc
    simp only [List.mem_singleton] at hc
    subst hc
    exact ⟨by decide, by decide, by decide, by decide⟩)

/-- C11 fails as stated: the decimal numeral `9223372036854775808` is out of the range of
`strconv.ParseInt(_, 10, 64)`, and the converter returns the range error and no value. -/
theorem xpending_summary_counterexample :
    decimalText false [9, 2, 2, 3, 3, 7, 2, 0, 3, 6, 8, 5, 4, 7, 7, 5, 8, 0, 8] =
      "9223372036854775808" ∧
    ConvertXPendingResponse
        (pendingReply 5 (some "1-1") (some "5-5") [("consumer1", "9223372036854775808")]) =
      .ret none (some (.parseRange "9223372036854775808")) :=
  ⟨by rfl, by rfl⟩

/-! ## Geo search locations -/

theorem convertRows_pairs (pairs : List (String × List Reply)) :
    arrayConverter.convertRows Reply
        (pairs.map (fun p => Reply.arr [.str p.1, .arr p.2])) =
      .ret (some (pairs.map (fun p => [Reply.str p.1, Reply.arr p.2]))) none := by
  induction pairs with
  | nil => rfl
  | cons p rest ih =>
    simp [arrayConverter.convertRows, arrayConverter.convert, arrayConverter.convertElems,
      GoElem.assert, ih]

theorem locationExtras_last (extras : List Reply) (location : Location)
    (hcoord : ∀ e ∈ extras, ∀ xs, e = Reply.arr xs →
      ∃ lon lat tl, xs = Reply.float64 lon :: Reply.float64 lat :: tl) :
    locationExtras location extras =
      some ⟨location.Name,
        ((extras.filterMap Reply.asCoord).getLast?).getD location.Coord,
        ((extras.filterMap Reply.asFloat).getLast?).getD location.Dist,
        ((extras.filterMap Reply.asInt).getLast?).getD location.Hash⟩ := by
  induction extras generalizing location with
  | nil => rfl
  | cons value rest ih =>
    have hrest := fun loc => ih loc (fun e he => hcoord e (List.mem_cons_of_mem _ he))
    cases value with
    | arr xs =>
      obtain ⟨lon, lat, tl, rfl⟩ := hcoord _ (List.mem_cons_self _ _) xs rfl
      simp [locationExtras, hrest, Reply.asCoord, Reply.asFloat, Reply.asInt,
        List.getLast?_cons]
    | float64 v =>
      simp [locationExtras, hrest, Reply.asCoord, Reply.asFloat, Reply.asInt,
        List.getLast?_cons]
    | int64 v =>
      simp [locationExtras, hrest, Reply.asCoord, Reply.asFloat, Reply.asInt,
        List.getLast?_cons]
    | _ => simp [locationExtras, hrest, Reply.asCoord, Reply.asFloat, Reply.asInt]

/-- C12, as amended: on an array of `[name, extras]` pairs in which every array found in
an `extras` starts with two floats, the converter returns one location per pair in source
order with `Name = name`; `Dist` is the last float of `extras` and `0` when there is
none, `Hash` the last integer and `0` when there is none, `Coord` the first two floats of
the last array and the zero pair when there is none. On `[["Place", [3.14, 87, [13.5,
52.5]]]]` the result is the one location with `Dist = 3.14`, `Hash = 87` and
`Coord = {13.5, 52.5}`. -/
theorem location_array (pairs : List (String × List Reply))
    (hcoord : ∀ p ∈ pairs, ∀ e ∈ p.2, ∀ xs, e = Reply.arr xs →
      ∃ lon lat tl, xs = Reply.float64 lon :: Reply.float64 lat :: tl) :
    ConvertLocationArrayResponse (locationReply pairs) =
      .ret (some (pairs.map (fun p => Location.mk p.1
        (((p.2.filterMap Reply.asCoord).getLast?).getD ⟨F64.zero, F64.zero⟩)
        (((p.2.filterMap Reply.asFloat).getLast?).getD F64.zero)
        (((p.2.filterMap Reply.asInt).getLast?).getD 0)))) none ∧
    ConvertLocationArrayResponse
        (locationReply [("Place", [.float64 ⟨false, 1024, 2567051787601183⟩, .int64 87,
          .arr [.float64 ⟨false, 1026, 3096224743817216⟩,
            .float64 ⟨false, 1028, 2885118511284224⟩]])]) =
      .ret (some [⟨"Place",
        ⟨⟨false, 1026, 3096224743817216⟩, ⟨false, 1028, 2885118511284224⟩⟩,
        ⟨false, 1024, 2567051787601183⟩, 87⟩]) none := by
  refine ⟨?_, by rfl⟩
  simp only [ConvertLocationArrayResponse, locationReply, arrayConverter.convertNested,
    convertRows_pairs]
  induction pairs with
  | nil => rfl
  | cons p rest ih =>
    simp [rangeLoop, locationBody, assertString,
      locationExtras_last p.2 _ (hcoord p (List.mem_cons_self _ _)),
      ih (fun q hq => hcoord q (List.mem_cons_of_mem _ hq))]

/-- Witness of `location_array` on `[["Place", [3.14, 87, [13.5, 52.5]]]]`. -/
theorem location_array_witness :
    ConvertLocationArrayResponse
        (locationReply [("Place", [.float64 ⟨false, 1024, 2567051787601183⟩, .int64 87,
          .arr [.float64 ⟨false, 1026, 3096224743817216⟩,
            .float64 ⟨false, 1028, 2885118511284224⟩]])]) =
      .ret (some ([("Place", [Reply.float64 ⟨false, 1024, 2567051787601183⟩, .int64 87,
          .arr [.float64 ⟨false, 1026, 3096224743817216⟩,
            .float64 ⟨false, 1028, 2885118511284224⟩]])].map (fun p => Location.mk p.1
        (((p.2.filterMap Reply.asCoord).getLast?).getD ⟨F64.zero, F64.zero⟩)
        (((p.2.filterMap Reply.asFloat).getLast?).getD F64.zero)
        (((p.2.filterMap Reply.asInt).getLast?).getD 0)))) none ∧
    ConvertLocationArrayResponse
        (locationReply [("Place", [.float64 ⟨false, 1024, 2567051787601183⟩, .int64 87,
          .arr [.float64 ⟨false, 1026, 3096224743817216⟩,
            .float64 ⟨false, 1028, 2885118511284224⟩]])]) =
      .ret (some [⟨"Place",
        ⟨⟨false, 1026, 3096224743817216⟩, ⟨false, 1028, 2885118511284224⟩⟩,
        ⟨false, 1024, 2567051787601183⟩, 87⟩]) none :=
  location_array [("Place", [.float64 ⟨false, 1024, 2567051787601183⟩, .int64 87,
      .arr [.float64 ⟨false, 1026, 3096224743817216⟩,
        .float64 ⟨false, 1028, 2885118511284224⟩]])] (by
    intro p hp e he xs hxs
    simp only [List.mem_singleton] at hp
    subst hp
    simp only [List.mem_cons, List.mem_singleton, List.not_mem_nil, or_false] at he
    rcases he with rfl | rfl | rfl
    · cases hxs
    · cases hxs
    · cases hxs
      exact ⟨_, _, _, rfl⟩)

/-- C12 fails as stated: on `[["Place", [[]]]]`, a pair whose extras hold an empty
array, the converter aborts on `coordArray[0]` and returns nothing. -/
theorem location_array_counterexample :
    ConvertLocationArrayResponse (locationReply [("Place", [.arr []])]) = .abort := by
  rfl

/-! ## Ranked pop -/

/-- C13, as amended: on a reply `[key, scores]` with `scores` a map of distinct members
and no NaN score, the converter succeeds with `Key = key` and the entries of `scores`
in ascending order of score, ties broken by member ascending; a `nil` reply gives the
absent value with no error; and every listing of `{"a": 1.0, "b": 1.0, "c": 2.0}` under
the key `"myset"` gives the members `[{a, 1.0}, {b, 1.0}, {c, 2.0}]`. -/
theorem keyWithMembers_sorted (key : String) (l : List (String × F64))
    (hkeys : (l.map Prod.fst).Nodup) (hnan : ∀ kv ∈ l, kv.2.isNaN = false) :
    (∃ out, ConvertKeyWithArrayOfMembersAndScores (.arr [.str key, scoreMap l]) =
        .ret (some (Result.Present ⟨key, out⟩)) none ∧
      out.Perm (l.map (fun kv => MemberAndScore.mk kv.1 kv.2)) ∧
      ScoreOrdered false out) ∧
    ConvertKeyWithArrayOfMembersAndScores .nil = .ret none none ∧
    ∀ l', l'.Perm [("a", F64.one), ("b", F64.one), ("c", F64.two)] →
      ConvertKeyWithArrayOfMembersAndScores (.arr [.str "myset", scoreMap l']) =
        .ret (some (Result.Present ⟨"myset",
          [⟨"a", F64.one⟩, ⟨"b", F64.one⟩, ⟨"c", F64.two⟩]⟩)) none := by
  have hrun : ∀ (k : String) (m : List (String × F64)),
      ConvertKeyWithArrayOfMembersAndScores (.arr [.str k, scoreMap m]) =
        .ret (some (Result.Present ⟨k, sortSlice lessForward
          (m.map (fun kv => MemberAndScore.mk kv.1 kv.2))⟩)) none := by
    intro k m
    simp [ConvertKeyWithArrayOfMembersAndScores, assertString, makeConvert_scoreMap]
  refine ⟨⟨_, hrun key l, sortSlice_perm _ _, ?_⟩, rfl, ?_⟩
  · exact (scoreOrdered_of_less _).1
      (sortSlice_sorted lessForward lessForward_trans _ (members_comparable l hkeys hnan))
  · intro l' hperm
    rw [hrun]
    have hk : (l'.map Prod.fst).Nodup :=
      ((hperm.map Prod.fst).nodup_iff).2 (by decide)
    have hn : ∀ kv ∈ l', kv.2.isNaN = false := by
      intro kv hkv
      have hmem := hperm.subset hkv
      simp only [List.mem_cons, List.mem_singleton, List.not_mem_nil, or_false] at hmem
      rcases hmem with rfl | rfl | rfl <;> rfl
    rw [sortSlice_eq_of_perm lessForward lessForward_trans lessForward_asymm _ _
      (hperm.map (fun kv : String × F64 => MemberAndScore.mk kv.1 kv.2))
      (members_comparable l' hk hn)]
    rfl

/-- Witness of `keyWithMembers_sorted` on `["myset", {"b": 1.0, "a": 1.0, "c": 2.0}]`. -/
theorem keyWithMembers_sorted_witness :
    (∃ out, ConvertKeyWithArrayOfMembersAndScores
          (.arr [.str "myset", scoreMap [("b", F64.one), ("a", F64.one), ("c", F64.two)]]) =
        .ret (some (Result.Present ⟨"myset", out⟩)) none ∧
      out.Perm ([("b", F64.one), ("a", F64.one), ("c", F64.two)].map
        (fun kv => MemberAndScore.mk kv.1 kv.2)) ∧
      ScoreOrdered false out) ∧
    ConvertKeyWithArrayOfMembersAndScores .nil = .ret none none ∧
    ∀ l', l'.Perm [("a", F64.one), ("b", F64.one), ("c", F64.two)] →
      ConvertKeyWithArrayOfMembersAndScores (.arr [.str "myset", scoreMap l']) =
        .ret (some (Result.Present ⟨"myset",
          [⟨"a", F64.one⟩, ⟨"b", F64.one⟩, ⟨"c", F64.two⟩]⟩)) none :=
  keyWithMembers_sorted "myset" [("b", F64.one), ("a", F64.one), ("c", F64.two)]
    (by decide) (by decide)

/-- C13 fails as stated: on `["myset", {"a": NaN, "b": 1.0}]` the converter returns the
members `[a, b]`, and `NaN < 1.0` and `NaN == 1.0` are both false. -/
theorem keyWithMembers_sorted_counterexample :
    ConvertKeyWithArrayOfMembersAndScores
        (.arr [.str "myset", scoreMap [("a", F64.nan), ("b", F64.one)]]) =
      .ret (some (Result.Present ⟨"myset", [⟨"a", F64.nan⟩, ⟨"b", F64.one⟩]⟩)) none ∧
    ¬ ScoreOrdered false [⟨"a", F64.nan⟩, ⟨"b", F64.one⟩] := by
  refine ⟨by rfl, ?_⟩
  intro hord
  have hlt : F64.lt F64.nan F64.one = false := by decide
  have heq : F64.eq F64.nan F64.one = false := by decide
  simp [ScoreOrdered, hlt, heq] at hord

/-! ## Stream introspection -/

theorem int64OrNil_iff (x : Reply) :
    (int64OrNil x = Result.Absent ↔ ∀ v, x ≠ Reply.int64 v) ∧
    ∀ v, int64OrNil x = Result.Present v ↔ x = Reply.int64 v := by
  cases x <;> simp [int64OrNil]

theorem convertElems_maps (maps : List (List (String × Reply))) :
    arrayConverter.convertElems (List (String × Reply)) (maps.map Reply.map) = .ok maps := by
  induction maps with
  | nil => rfl
  | cons m rest ih =>
    simp only [List.map_cons, arrayConverter.convertElems, GoElem.assert, ih]

/-- C14, as amended: on an array of consumer maps with a string `name` and integer
`pending` and `idle`, and on an array of group maps with a string `name` and
`last-delivered-id` and integer `consumers` and `pending`, the converters succeed with
one result per map in source order, and a nilable field (`Inactive`; `Lag`;
`EntriesRead`) is absent exactly when the map entry (`inactive`; `lag`; `entries-read`)
is anything but an integer, be it missing, `nil` or of another kind, and holds the
integer otherwise. -/
theorem xinfo_nilable_fields (consumers groups : List (List (String × Reply)))
    (hcons : ∀ m ∈ consumers, ∃ n p i, mapIndex m "name" = .str n ∧
      mapIndex m "pending" = .int64 p ∧ mapIndex m "idle" = .int64 i)
    (hgroups : ∀ m ∈ groups, ∃ n c p d, mapIndex m "name" = .str n ∧
      mapIndex m "consumers" = .int64 c ∧ mapIndex m "pending" = .int64 p ∧
      mapIndex m "last-delivered-id" = .str d) :
    (∃ out, ConvertXInfoConsumersResponse (.arr (consumers.map Reply.map)) =
        .ret (some out) none ∧
      List.Forall₂ (fun (info : XInfoConsumerInfo) m =>
        (info.Inactive = Result.Absent ↔ ∀ v, mapIndex m "inactive" ≠ .int64 v) ∧
        ∀ v, info.Inactive = Result.Present v ↔ mapIndex m "inactive" = .int64 v)
        out consumers) ∧
    (∃ out, ConvertXInfoGroupsResponse (.arr (groups.map Reply.map)) =
        .ret (some out) none ∧
      List.Forall₂ (fun (info : XInfoGroupInfo) m =>
        ((info.Lag = Result.Absent ↔ ∀ v, mapIndex m "lag" ≠ .int64 v) ∧
          ∀ v, info.Lag = Result.Present v ↔ mapIndex m "lag" = .int64 v) ∧
        ((info.EntriesRead = Result.Absent ↔ ∀ v, mapIndex m "entries-read" ≠ .int64 v) ∧
          ∀ v, info.EntriesRead = Result.Present v ↔
            mapIndex m "entries-read" = .int64 v))
        out groups) := by
  constructor
  · obtain ⟨out, hout, hrel⟩ := rangeLoop_forall₂ consumerInfoBody some
      (fun (info : XInfoConsumerInfo) m =>
        (info.Inactive = Result.Absent ↔ ∀ v, mapIndex m "inactive" ≠ .int64 v) ∧
        ∀ v, info.Inactive = Result.Present v ↔ mapIndex m "inactive" = .int64 v)
      consumers (by
        intro m hm
        obtain ⟨n, p, i, h1, h2, h3⟩ := hcons m hm
        exact Or.inr ⟨m, ⟨n, p, i, int64OrNil (mapIndex m "inactive")⟩, rfl,
          by simp only [consumerInfoBody, h1, h2, h3], int64OrNil_iff _⟩)
    refine ⟨out, ?_, by simpa using hrel⟩
    simp only [ConvertXInfoConsumersResponse, arrayConverter.convert, convertElems_maps, hout]
  · obtain ⟨out, hout, hrel⟩ := rangeLoop_forall₂ groupInfoBody some
      (fun (info : XInfoGroupInfo) m =>
        ((info.Lag = Result.Absent ↔ ∀ v, mapIndex m "lag" ≠ .int64 v) ∧
          ∀ v, info.Lag = Result.Present v ↔ mapIndex m "lag" = .int64 v) ∧
        ((info.EntriesRead = Result.Absent ↔ ∀ v, mapIndex m "entries-read" ≠ .int64 v) ∧
          ∀ v, info.EntriesRead = Result.Present v ↔
            mapIndex m "entries-read" = .int64 v))
      groups (by
        intro m hm
        obtain ⟨n, c, p, d, h1, h2, h3, h4⟩ := hgroups m hm
        exact Or.inr ⟨m, ⟨n, c, p, d, int64OrNil (mapIndex m "lag"),
            int64OrNil (mapIndex m "entries-read")⟩, rfl,
          by simp only [groupInfoBody, h1, h2, h3, h4],
          int64OrNil_iff _, int64OrNil_iff _⟩)
    refine ⟨out, ?_, by simpa using hrel⟩
    simp only [ConvertXInfoGroupsResponse, arrayConverter.convert, convertElems_maps, hout]

/-- Witness of `xinfo_nilable_fields` on one consumer map whose `inactive` is a string
and one group map whose `lag` is an integer and whose `entries-read` is missing. -/
theorem xinfo_nilable_fields_witness :
    (∃ out, ConvertXInfoConsumersResponse
          (.arr ([[("name", Reply.str "c"), ("pending", .int64 1), ("idle", .int64 2),
            ("inactive", .str "never")]].map Reply.map)) = .ret (some out) none ∧
      List.Forall₂ (fun (info : XInfoConsumerInfo) m =>
        (info.Inactive = Result.Absent ↔ ∀ v, mapIndex m "inactive" ≠ .int64 v) ∧
        ∀ v, info.Inactive = Result.Present v ↔ mapIndex m "inactive" = .int64 v)
        out [[("name", Reply.str "c"), ("pending", .int64 1), ("idle", .int64 2),
            ("inactive", .str "never")]]) ∧
    (∃ out, ConvertXInfoGroupsResponse
          (.arr ([[("name", Reply.str "g"), ("consumers", .int64 1), ("pending", .int64 2),
            ("last-delivered-id", .str "1-0"), ("lag", .int64 4)]].map Reply.map)) =
        .ret (some out) none ∧
      List.Forall₂ (fun (info : XInfoGroupInfo) m =>
        ((info.Lag = Result.Absent ↔ ∀ v, mapIndex m "lag" ≠ .int64 v) ∧
          ∀ v, info.Lag = Result.Present v ↔ mapIndex m "lag" = .int64 v) ∧
        ((info.EntriesRead = Result.Absent ↔ ∀ v, mapIndex m "entries-read" ≠ .int64 v) ∧
          ∀ v, info.EntriesRead = Result.Present v ↔
            mapIndex m "entries-read" = .int64 v))
        out [[("name", Reply.str "g"), ("consumers", .int64 1), ("pending", .int64 2),
            ("last-delivered-id", .str "1-0"), ("lag", .int64 4)]]) :=
  xinfo_nilable_fields
    [[("name", .str "c"), ("pending", .int64 1), ("idle", .int64 2),
      ("inactive", .str "never")]]
    [[("name", .str "g"), ("consumers", .int64 1), ("pending", .int64 2),
      ("last-delivered-id", .str "1-0"), ("lag", .int64 4)]]
    (by
      intro m hm
      simp only [List.mem_singleton] at hm
      subst hm
      exact ⟨"c", 1, 2, by rfl, by rfl, by rfl⟩)
    (by
      intro m hm
      simp only [List.mem_singleton] at hm
      subst hm
      exact ⟨"g", 1, 2, "1-0", by rfl, by rfl, by rfl, by rfl⟩)

/-- C14 fails as stated: a consumer map whose `inactive` is a string, and a group map
whose `lag` is a string and whose `entries-read` is a boolean, are converted with no
error, the fields left absent. -/
theorem xinfo_nilable_fields_counterexample :
    ConvertXInfoConsumersResponse
        (.arr [.map [("name", .str "c"), ("pending", .int64 1), ("idle", .int64 2),
          ("inactive", .str "never")]]) =
      .ret (some [⟨"c", 1, 2, Result.Absent⟩]) none ∧
    ConvertXInfoGroupsResponse
        (.arr [.map [("name", .str "g"), ("consumers", .int64 1), ("pending", .int64 2),
          ("last-delivered-id", .str "1-0"), ("lag", .str "unknown"),
          ("entries-read", .bool true)]]) =
      .ret (some [⟨"g", 1, 2, "1-0", Result.Absent, Result.Absent⟩]) none :=
  ⟨by rfl, by rfl⟩

/-! ## XREAD -/

/-- C15, the behaviour of the code: the entries of a stream come out in the order the
inner map was visited. The listing `2-0, 1-0` of the stream `s` gives the entries
`[2-0, 1-0]`, which are not in ascending ID order, and the listing `1-0, 2-0` of the same
map gives `[1-0, 2-0]`. -/
theorem xread_entries_in_iteration_order :
    ConvertXReadResponse (fun _ => []) (.map [("s", .map [("2-0", .nil), ("1-0", .nil)])]) =
      .ret (some [("s", ⟨[⟨"2-0", []⟩, ⟨"1-0", []⟩]⟩)]) none ∧
    ConvertXReadResponse (fun _ => []) (.map [("s", .map [("1-0", .nil), ("2-0", .nil)])]) =
      .ret (some [("s", ⟨[⟨"1-0", []⟩, ⟨"2-0", []⟩]⟩)]) none ∧
    strLess "1-0" "2-0" = true :=
  ⟨by rfl, by rfl, by decide⟩

/-! ## Scan -/

/-- Whenever the page conversion returns an error and no value, `ConvertScanResult`
aborts. -/
theorem convertScanResult_abort (cursor page : Reply) (e : GoError)
    (hpage : ConvertArrayOf String page = .ret none (some e)) :
    ConvertScanResult (.arr [cursor, page]) = .abort := by
  simp only [ConvertScanResult, List.getElem?_cons_succ, List.getElem?_cons_zero, hpage]
  cases assertString (some cursor) <;> rfl

/-- C16, the behaviour of the code: on `["0", [1]]`, whose page holds an integer, and on
`["0", "x"]`, whose page is no array, the page conversion returns an error and no value,
and `ConvertScanResult` aborts instead of returning that error. -/
theorem convertScanResult_aborts_on_bad_page :
    ConvertArrayOf String (.arr [.int64 1]) =
      .ret none (some (.typeMismatch .int64 .string)) ∧
    ConvertScanResult (.arr [.str "0", .arr [.int64 1]]) = .abort ∧
    ConvertArrayOf String (.str "x") =
      .ret none (some (.typeMismatch .string .sliceAny)) ∧
    ConvertScanResult (.arr [.str "0", .str "x"]) = .abort :=
  ⟨by rfl, by rfl, by rfl, by rfl⟩

/-! ## Function list -/

theorem functionInfo_loop (fs : List Reply)
    (hname : ∀ f ∈ fs, ∀ fm, f = Reply.map fm → ∃ n, mapIndex fm "name" = .str n) :
    ∃ out, rangeLoop functionInfoBody fs = .ret (some out) none ∧
      List.Forall₂ (fun (fi : FunctionInfo) fm => mapIndex fm "name" = .str fi.Name)
        out (fs.filterMap Reply.asMap) := by
  apply rangeLoop_forall₂
  intro f hf
  cases f with
  | map fm =>
    obtain ⟨n, hn⟩ := hname _ hf fm rfl
    exact Or.inr ⟨fm, ⟨n,
      (match mapIndex fm "description" with
        | .str desc => desc
        | _ => ""),
      (match mapIndex fm "flags" with
        | .set flagsMap => flagsMap
        | _ => [])⟩, rfl, by simp only [functionInfoBody, hn], hn⟩
  | _ => exact Or.inl ⟨rfl, rfl⟩

/-- C17, as amended: on an array in which every map element has string `library_name`
and `engine` and an array `functions` whose map elements have a string `name`, the
converter succeeds; the result has exactly one library per input element that is a map,
in source order, and each library has exactly one function per map element of its
`functions` array, in source order. Elements that are not maps are passed over without
an error. -/
theorem functionList_one_per_map (items : List Reply)
    (hshape : ∀ item ∈ items, ∀ m, item = Reply.map m →
      (∃ n e, mapIndex m "library_name" = .str n ∧ mapIndex m "engine" = .str e) ∧
      ∃ fs, mapIndex m "functions" = .arr fs ∧
        ∀ f ∈ fs, ∀ fm, f = Reply.map fm → ∃ n, mapIndex fm "name" = .str n) :
    ∃ out, ConvertFunctionListResponse (.arr items) = .ret (some out) none ∧
      List.Forall₂ (fun (lib : LibraryInfo) m =>
        mapIndex m "library_name" = .str lib.Name ∧
        ∃ fs, mapIndex m "functions" = .arr fs ∧
          List.Forall₂ (fun (fi : FunctionInfo) fm => mapIndex fm "name" = .str fi.Name)
            lib.Functions (fs.filterMap Reply.asMap))
        out (items.filterMap Reply.asMap) := by
  unfold ConvertFunctionListResponse
  apply rangeLoop_forall₂
  intro item hitem
  cases item with
  | map m =>
    obtain ⟨⟨n, e, hn, he⟩, fs, hfs, hnames⟩ := hshape _ hitem m rfl
    obtain ⟨fo, hfo, hrel⟩ := functionInfo_loop fs hnames
    refine Or.inr ⟨m, ⟨n, e, fo, match mapIndex m "library_code" with
      | .str code => code
      | _ => ""⟩, rfl, ?_, hn, fs, hfs, hrel⟩
    simp only [libraryInfoBody, hfs, hfo, hn, he]
  | _ => exact Or.inl ⟨rfl, rfl⟩

/-- Witness of `functionList_one_per_map` on an integer followed by one library map
whose `functions` array holds `nil` and one function map. -/
theorem functionList_one_per_map_witness :
    ∃ out, ConvertFunctionListResponse (.arr [.int64 5,
        .map [("library_name", .str "lib"), ("engine", .str "LUA"),
          ("functions", .arr [.nil, .map [("name", .str "f")]])]]) = .ret (some out) none ∧
      List.Forall₂ (fun (lib : LibraryInfo) m =>
        mapIndex m "library_name" = .str lib.Name ∧
        ∃ fs, mapIndex m "functions" = .arr fs ∧
          List.Forall₂ (fun (fi : FunctionInfo) fm => mapIndex fm "name" = .str fi.Name)
            lib.Functions (fs.filterMap Reply.asMap))
        out ([Reply.int64 5,
        .map [("library_name", .str "lib"), ("engine", .str "LUA"),
          ("functions", .arr [.nil, .map [("name", .str "f")]])]].filterMap Reply.asMap) :=
  functionList_one_per_map _ (by
    intro item hitem m hm
    simp only [List.mem_cons, List.mem_singleton, List.not_mem_nil, or_false] at hitem
    rcases hitem with rfl | rfl
    · cases hm
    · cases hm
      refine ⟨⟨"lib", "LUA", by rfl, by rfl⟩, [.nil, .map [("name", .str "f")]], by rfl, ?_⟩
      intro f hf fm hfm
      simp only [List.mem_cons, List.mem_singleton, List.not_mem_nil, or_false] at hf
      rcases hf with rfl | rfl
      · cases hfm
      · cases hfm
        exact ⟨"f", by rfl⟩)

/-- C17 fails as stated: the array `[5]`, whose element is not a map, is converted with
no error to the empty result, and a `nil` inside a `functions` array is dropped in the
same way. -/
theorem functionList_one_per_map_counterexample :
    ConvertFunctionListResponse (.arr [.int64 5]) = .ret (some []) none ∧
    ConvertFunctionListResponse (.arr [
        .map [("library_name", .str "lib"), ("engine", .str "LUA"),
          ("functions", .arr [.nil, .map [("name", .str "f")]])]]) =
      .ret (some [⟨"lib", "LUA", [⟨"f", "", []⟩], ""⟩]) none :=
  ⟨by rfl, by rfl⟩

/-! ## XCLAIM -/

/-- C18, as amended: given an Error-sentinel reply, `ConvertXClaimResponse` returns no
value and the conversion error "unexpected type received" carrying the type of the
sentinel. -/
theorem xclaim_error_sentinel (fieldInfo : Reply → List FieldValue) (msg : String) :
    ConvertXClaimResponse fieldInfo (.error msg) =
      .ret none (some (.typeReceived (some GoType.errorString))) :=
  rfl

/-- C18 fails as stated: on the sentinel `ERR` the converter returns a conversion error,
and no outcome without an error. -/
theorem xclaim_error_sentinel_counterexample :
    ConvertXClaimResponse (fun _ => []) (.error "ERR") =
      .ret none (some (.typeReceived (some GoType.errorString))) ∧
    ¬ ∃ v, ConvertXClaimResponse (fun _ => []) (.error "ERR") = .ret v none := by
  refine ⟨rfl, ?_⟩
  rintro ⟨v, hv⟩
  have hrun : ConvertXClaimResponse (fun _ => []) (.error "ERR") =
      .ret none (some (.typeReceived (some GoType.errorString))) := rfl
  rw [hrun] at hv
  injection hv with _ herr
  cases herr

/-! ## Stream entry order and permutation -/

/-- C19, the behaviour of the code: the map with the IDs `1-9` and `1-10` is converted
by the forward converter to `[1-10, 1-9]` and by the reverse converter to `[1-9, 1-10]`,
while the stream orders `1-9`, of key `(1, 9)`, before `1-10`, of key `(1, 10)`. -/
theorem streamEntryArray_string_order :
    MakeConvertStreamEntryArray (fun _ => []) false (.map [("1-9", .nil), ("1-10", .nil)]) =
      .ret (some [⟨"1-10", []⟩, ⟨"1-9", []⟩]) none ∧
    MakeConvertStreamEntryArray (fun _ => []) true (.map [("1-9", .nil), ("1-10", .nil)]) =
      .ret (some [⟨"1-9", []⟩, ⟨"1-10", []⟩]) none ∧
    streamIdKey "1-9" = some (1, 9) ∧ streamIdKey "1-10" = some (1, 10) :=
  ⟨by rfl, by rfl, by rfl, by rfl⟩

/-- With the insertion sort of short slices the converter returns, with no error, a
permutation of the map's entries, of the length of the map. -/
theorem memberAndScore_perm (reverse : Bool) (l : List (String × F64)) :
    ∃ out, MakeConvertMapOfMemberAndScore reverse (scoreMap l) = .ret (some out) none ∧
      out.Perm (l.map (fun kv => MemberAndScore.mk kv.1 kv.2)) ∧
      out.length = (l.map Prod.fst).length := by
  refine ⟨_, makeConvert_scoreMap reverse l, sortSlice_perm _ _, ?_⟩
  rw [(sortSlice_perm _ _).length_eq]
  simp

/-! ## Forward and reverse member/score sequences -/

/-- C21, as amended: for a reply map from member to score with distinct keys and no NaN
score, the sequence the reverse converter returns is exactly the reversal of the
sequence the forward converter returns, whichever listings of the map the two calls
visit. -/
theorem memberAndScore_reverse_is_reversal (l l' : List (String × F64))
    (hperm : l'.Perm l) (hkeys : (l.map Prod.fst).Nodup)
    (hnan : ∀ kv ∈ l, kv.2.isNaN = false) :
    ∃ forward, MakeConvertMapOfMemberAndScore false (scoreMap l) =
        .ret (some forward) none ∧
      MakeConvertMapOfMemberAndScore true (scoreMap l') =
        .ret (some forward.reverse) none := by
  refine ⟨_, makeConvert_scoreMap false l, ?_⟩
  rw [makeConvert_scoreMap true l']
  simp only [Bool.false_eq_true, if_false, if_true]
  have hkeys' : (l'.map Prod.fst).Nodup := ((hperm.map Prod.fst).nodup_iff).2 hkeys
  have hnan' : ∀ kv ∈ l', kv.2.isNaN = false := fun kv hkv => hnan kv (hperm.subset hkv)
  have hfwd := sortSlice_sorted lessForward lessForward_trans _
    (members_comparable l hkeys hnan)
  have hrev := sortSlice_sorted lessReverse lessReverse_trans _
    (members_comparable_reverse l' hkeys' hnan')
  have hfwd' : (sortSlice lessForward
      (l.map (fun kv => MemberAndScore.mk kv.1 kv.2))).reverse.Pairwise
      (fun a b => lessReverse a b = true) := by
    rw [List.pairwise_reverse]
    exact hfwd.imp (fun h => by rw [lessReverse_eq]; exact h)
  have hp : (sortSlice lessReverse (l'.map (fun kv => MemberAndScore.mk kv.1 kv.2))).Perm
      (sortSlice lessForward (l.map (fun kv => MemberAndScore.mk kv.1 kv.2))).reverse :=
    ((sortSlice_perm _ _).trans
      (hperm.map (fun kv : String × F64 => MemberAndScore.mk kv.1 kv.2))).trans
      (((List.reverse_perm _).trans (sortSlice_perm _ _)).symm)
  haveI : IsAntisymm MemberAndScore (fun a b => lessReverse a b = true) :=
    ⟨fun a b hab hba => (lessReverse_asymm a b hab hba).elim⟩
  rw [List.eq_of_perm_of_sorted hp hrev hfwd']

/-- Witness of `memberAndScore_reverse_is_reversal` on two listings of
`{b: 1.0, a: 1.0, c: 2.0}`. -/
theorem memberAndScore_reverse_is_reversal_witness :
    ∃ forward, MakeConvertMapOfMemberAndScore false
          (scoreMap [("b", F64.one), ("a", F64.one), ("c", F64.two)]) =
        .ret (some forward) none ∧
      MakeConvertMapOfMemberAndScore true
          (scoreMap [("a", F64.one), ("b", F64.one), ("c", F64.two)]) =
        .ret (some forward.reverse) none :=
  memberAndScore_reverse_is_reversal [("b", F64.one), ("a", F64.one), ("c", F64.two)]
    [("a", F64.one), ("b", F64.one), ("c", F64.two)]
    (List.Perm.swap _ _ _) (by decide) (by decide)

/-- C21 fails as stated: on the listing `a, b` of the map `{a: NaN, b: 1.0}` the forward
and the reverse converter both return `[a, b]`, which is not its own reversal. -/
theorem memberAndScore_reverse_is_reversal_counterexample :
    MakeConvertMapOfMemberAndScore false (scoreMap [("a", F64.nan), ("b", F64.one)]) =
      .ret (some [⟨"a", F64.nan⟩, ⟨"b", F64.one⟩]) none ∧
    MakeConvertMapOfMemberAndScore true (scoreMap [("a", F64.nan), ("b", F64.one)]) =
      .ret (some [⟨"a", F64.nan⟩, ⟨"b", F64.one⟩]) none ∧
    [MemberAndScore.mk "a" F64.nan, ⟨"b", F64.one⟩] ≠
      [MemberAndScore.mk "a" F64.nan, ⟨"b", F64.one⟩].reverse :=
  ⟨by rfl, by rfl, by decide⟩

/-! ## Function stats -/

theorem mem_mapSet {β : Type} (m : List (String × β)) (key : String) (v : β)
    (k : String) (e : β) (h : (k, e) ∈ mapSet m key v) :
    (k, e) ∈ m ∨ (k = key ∧ e = v) := by
  induction m with
  | nil =>
    simp only [mapSet, List.mem_singleton, Prod.mk.injEq] at h
    exact Or.inr h
  | cons kw rest ih =>
    obtain ⟨k', w⟩ := kw
    unfold mapSet at h
    split at h
    · rename_i hk
      rcases List.mem_cons.1 h with h | h
      · simp only [Prod.mk.injEq] at h
        exact Or.inr ⟨h.1.trans hk, h.2⟩
      · exact Or.inl (List.mem_cons_of_mem _ h)
    · rcases List.mem_cons.1 h with h | h
      · exact Or.inl (h ▸ List.mem_cons_self _ _)
      · rcases ih h with h | h
        · exact Or.inl (List.mem_cons_of_mem _ h)
        · exact Or.inr h

theorem functionStatsEngines_sound (enginesMap : List (String × Reply))
    (engines out : List (String × Engine))
    (hrun : functionStatsEngines engines enginesMap = some out)
    (k : String) (e : Engine) (hmem : (k, e) ∈ out) :
    (k, e) ∈ engines ∨ ∃ engineMap, (k, Reply.map engineMap) ∈ enginesMap ∧
      e.Language = k ∧
      mapIndex engineMap "functions_count" = .int64 e.FunctionCount ∧
      mapIndex engineMap "libraries_count" = .int64 e.LibraryCount := by
  induction enginesMap generalizing engines with
  | nil =>
    simp only [functionStatsEngines, Option.some.injEq] at hrun
    exact Or.inl (hrun ▸ hmem)
  | cons entry rest ih =>
    obtain ⟨engineName, engineData⟩ := entry
    have hlift : (∃ engineMap, (k, Reply.map engineMap) ∈ rest ∧ e.Language = k ∧
        mapIndex engineMap "functions_count" = .int64 e.FunctionCount ∧
        mapIndex engineMap "libraries_count" = .int64 e.LibraryCount) →
        ∃ engineMap, (k, Reply.map engineMap) ∈ (engineName, engineData) :: rest ∧
          e.Language = k ∧
          mapIndex engineMap "functions_count" = .int64 e.FunctionCount ∧
          mapIndex engineMap "libraries_count" = .int64 e.LibraryCount :=
      fun ⟨em, h1, h2⟩ => ⟨em, List.mem_cons_of_mem _ h1, h2⟩
    cases engineData with
    | map engineMap =>
      simp only [functionStatsEngines] at hrun
      split at hrun
      · rename_i fc lc hfc hlc
        rcases ih _ hrun with h | h
        · rcases mem_mapSet _ _ _ _ _ h with h | ⟨hk, he⟩
          · exact Or.inl h
          · subst hk
            subst he
            exact Or.inr ⟨engineMap, List.mem_cons_self _ _, rfl, hfc, hlc⟩
        · exact Or.inr (hlift h)
      · cases hrun
    | _ =>
      simp only [functionStatsEngines] at hrun
      rcases ih _ hrun with h | h
      · exact Or.inl h
      · exact Or.inr (hlift h)

/-- C22: whenever the converter succeeds on a reply map, every key of the resulting
`Engines` map is a key of the input `engines` map whose entry is a map, and the engine
stored under it has that key as `Language` and the entry's `functions_count` and
`libraries_count` as `FunctionCount` and `LibraryCount`; when `engines` is missing or not
a map the `Engines` map is empty; and when `running_script` is `nil` or missing the
`RunningScript` is the zero value. -/
theorem functionStats_result (nodeMap : List (String × Reply)) (out : FunctionStatsResult)
    (hrun : ConvertFunctionStatsResponse (.map nodeMap) = .ret (some out) none) :
    (∀ enginesMap, mapIndex nodeMap "engines" = .map enginesMap →
      ∀ k e, (k, e) ∈ out.Engines →
        ∃ engineMap, (k, Reply.map engineMap) ∈ enginesMap ∧ e.Language = k ∧
          mapIndex engineMap "functions_count" = .int64 e.FunctionCount ∧
          mapIndex engineMap "libraries_count" = .int64 e.LibraryCount) ∧
    ((∀ enginesMap, mapIndex nodeMap "engines" ≠ .map enginesMap) → out.Engines = []) ∧
    (mapIndex nodeMap "running_script" = .nil → out.RunningScript = RunningScript.zero) := by
  simp only [ConvertFunctionStatsResponse] at hrun
  split at hrun
  · rename_i engines runningScript hengines hscript
    simp only [GoRet.ret.injEq, Option.some.injEq, and_true] at hrun
    subst hrun
    refine ⟨?_, ?_, ?_⟩
    · intro enginesMap hmap k e hmem
      simp only [hmap] at hengines
      rcases functionStatsEngines_sound enginesMap [] engines hengines k e hmem with h | h
      · cases h
      · exact h
    · intro hno
      split at hengines
      · rename_i enginesMap hmap
        exact absurd hmap (hno enginesMap)
      · simp only [Option.some.injEq] at hengines
        exact hengines.symm
    · intro hnil
      simp only [hnil, functionStatsScript, Option.some.injEq] at hscript
      exact hscript.symm
  · cases hrun

/-- Witness of `functionStats_result` on a reply with one engine `LUA`, one entry that is
not a map, and a `nil` running script. -/
theorem functionStats_result_witness :
    (∀ enginesMap,
      mapIndex [("engines", Reply.map [("LUA", .map [("functions_count", .int64 3),
          ("libraries_count", .int64 1)]), ("other", .nil)]), ("running_script", .nil)]
        "engines" = .map enginesMap →
      ∀ k e, (k, e) ∈ (FunctionStatsResult.mk [("LUA", ⟨"LUA", 3, 1⟩)]
          RunningScript.zero).Engines →
        ∃ engineMap, (k, Reply.map engineMap) ∈ enginesMap ∧ e.Language = k ∧
          mapIndex engineMap "functions_count" = .int64 e.FunctionCount ∧
          mapIndex engineMap "libraries_count" = .int64 e.LibraryCount) ∧
    ((∀ enginesMap,
      mapIndex [("engines", Reply.map [("LUA", .map [("functions_count", .int64 3),
          ("libraries_count", .int64 1)]), ("other", .nil)]), ("running_script", .nil)]
        "engines" ≠ .map enginesMap) →
      (FunctionStatsResult.mk [("LUA", ⟨"LUA", 3, 1⟩)] RunningScript.zero).Engines = []) ∧
    (mapIndex [("engines", Reply.map [("LUA", .map [("functions_count", .int64 3),
          ("libraries_count", .int64 1)]), ("other", .nil)]), ("running_script", .nil)]
        "running_script" = .nil →
      (FunctionStatsResult.mk [("LUA", ⟨"LUA", 3, 1⟩)] RunningScript.zero).RunningScript =
        RunningScript.zero) :=
  functionStats_result
    [("engines", .map [("LUA", .map [("functions_count", .int64 3),
      ("libraries_count", .int64 1)]), ("other", .nil)]), ("running_script", .nil)]
    ⟨[("LUA", ⟨"LUA", 3, 1⟩)], RunningScript.zero⟩ (by rfl)

/-! ## Every run of `sort.Slice` permutes -/

theorem runPlan_perm {α : Type} {n : Nat} (less : α → α → Bool) (plan : SlicePlan n)
    (slice : Fin n → α) :
    ∃ π : Equiv.Perm (Fin n), runPlan less plan slice = slice ∘ π := by
  induction plan generalizing slice with
  | done => exact ⟨Equiv.refl _, rfl⟩
  | swap i j next ih =>
    obtain ⟨π, hπ⟩ := ih (slice ∘ Equiv.swap i j)
    exact ⟨π.trans (Equiv.swap i j), by simp only [runPlan, hπ]; rfl⟩
  | less i j yes no ihyes ihno =>
    by_cases h : less (slice i) (slice j) = true
    · obtain ⟨π, hπ⟩ := ihyes slice
      exact ⟨π, by simp only [runPlan, h, if_true, hπ]⟩
    · obtain ⟨π, hπ⟩ := ihno slice
      exact ⟨π, by simp only [runPlan, h, hπ]; rfl⟩

theorem sortSliceVia_perm {α : Type} (plan : (n : Nat) → SlicePlan n)
    (less : α → α → Bool) (s : List α) : (sortSliceVia plan less s).Perm s := by
  obtain ⟨π, hπ⟩ := runPlan_perm less (plan s.length) s.get
  unfold sortSliceVia
  rw [hπ]
  exact (π.ofFn_comp_perm s.get).trans (by rw [List.ofFn_get])

theorem makeConvertVia_scoreMap (plan : (n : Nat) → SlicePlan n) (reverse : Bool)
    (l : List (String × F64)) :
    MakeConvertMapOfMemberAndScoreVia plan reverse (scoreMap l) =
      .ret (some (sortSliceVia plan (if reverse then lessReverse else lessForward)
        (l.map (fun kv => MemberAndScore.mk kv.1 kv.2)))) none := by
  unfold MakeConvertMapOfMemberAndScoreVia
  rw [convertMapOf_scoreMap]
  cases reverse <;> rfl

/-- C20: for every reply map from member to score, NaN scores included, for each value
of the reverse flag and for every way the library may run `sort.Slice` through its
`Less` and `Swap` calls, the converter returns, with no error, a permutation of the
map's entries: every entry occurs in the result as often as in the map, nothing else
occurs, and the result has as many elements as the map has keys. -/
theorem memberAndScore_perm_any_sort (plan : (n : Nat) → SlicePlan n) (reverse : Bool)
    (l : List (String × F64)) :
    ∃ out, MakeConvertMapOfMemberAndScoreVia plan reverse (scoreMap l) =
        .ret (some out) none ∧
      out.Perm (l.map (fun kv => MemberAndScore.mk kv.1 kv.2)) ∧
      out.length = (l.map Prod.fst).length := by
  refine ⟨_, makeConvertVia_scoreMap plan reverse l, sortSliceVia_perm _ _ _, ?_⟩
  rw [(sortSliceVia_perm _ _ _).length_eq]
  simp

/-! ## The insertion plan and `sortSlice` -/

theorem ofFn_getElem?_val {α : Type} {n : Nat} (slice : Fin n → α) (i : Fin n) :
    (List.ofFn slice)[i.val]? = some (slice i) := by
  rw [List.getElem?_ofFn]
  simp [List.ofFnNthVal, i.isLt]

theorem ofFn_getElem?_of_le {α : Type} {n : Nat} (slice : Fin n → α) (k : Nat)
    (hk : n ≤ k) : (List.ofFn slice)[k]? = none := by
  rw [List.getElem?_ofFn]
  simp [List.ofFnNthVal, Nat.not_lt.2 hk]

theorem getElem?_at_length {α : Type} (pre post : List α) (a : α) :
    (pre ++ a :: post)[pre.length]? = some a := by
  rw [List.getElem?_append_right (Nat.le_refl _), Nat.sub_self]
  simp

theorem getElem?_after_length {α : Type} (pre post : List α) (a b : α) :
    (pre ++ a :: b :: post)[pre.length + 1]? = some b := by
  rw [List.getElem?_append_right (Nat.le_succ _)]
  have h : pre.length.succ - pre.length = 1 := by omega
  rw [h]
  simp

theorem getElem?_exchange {α : Type} (pre post : List α) (p x : α) (k : Nat)
    (h1 : k ≠ pre.length) (h2 : k ≠ pre.length + 1) :
    (pre ++ p :: x :: post)[k]? = (pre ++ x :: p :: post)[k]? := by
  by_cases hlt : k < pre.length
  · rw [List.getElem?_append_left hlt, List.getElem?_append_left hlt]
  · have hle : pre.length ≤ k := Nat.le_of_not_lt hlt
    rw [List.getElem?_append_right hle, List.getElem?_append_right hle]
    obtain ⟨m, hm⟩ : ∃ m, k - pre.length = m + 2 := ⟨k - pre.length - 2, by omega⟩
    rw [hm]
    rfl

theorem ofFn_swap_adjacent {α : Type} {n : Nat} (slice : Fin n → α) (pre post : List α)
    (p x : α) (hj : pre.length + 1 < n)
    (hslice : List.ofFn slice = pre ++ p :: x :: post) :
    List.ofFn (slice ∘ Equiv.swap (⟨pre.length + 1, hj⟩ : Fin n)
        ⟨pre.length, Nat.lt_of_succ_lt hj⟩) = pre ++ x :: p :: post ∧
    slice ⟨pre.length + 1, hj⟩ = x ∧ slice ⟨pre.length, Nat.lt_of_succ_lt hj⟩ = p := by
  have hx : slice ⟨pre.length + 1, hj⟩ = x := by
    have h := ofFn_getElem?_val slice ⟨pre.length + 1, hj⟩
    rw [hslice, getElem?_after_length] at h
    exact (Option.some.inj h).symm
  have hp : slice ⟨pre.length, Nat.lt_of_succ_lt hj⟩ = p := by
    have h := ofFn_getElem?_val slice ⟨pre.length, Nat.lt_of_succ_lt hj⟩
    rw [hslice, getElem?_at_length] at h
    exact (Option.some.inj h).symm
  refine ⟨?_, hx, hp⟩
  apply List.ext_getElem?
  intro k
  by_cases hk : k < n
  · have hval := ofFn_getElem?_val
      (slice ∘ Equiv.swap (⟨pre.length + 1, hj⟩ : Fin n)
        ⟨pre.length, Nat.lt_of_succ_lt hj⟩) ⟨k, hk⟩
    simp only [Function.comp_apply] at hval
    rw [hval]
    by_cases h1 : k = pre.length
    · subst h1
      rw [Equiv.swap_apply_right, hx, getElem?_at_length]
    · by_cases h2 : k = pre.length + 1
      · subst h2
        rw [Equiv.swap_apply_left, hp, getElem?_after_length]
      · rw [Equiv.swap_apply_of_ne_of_ne (by simpa [Fin.ext_iff] using h2)
          (by simpa [Fin.ext_iff] using h1)]
        rw [← getElem?_exchange pre post p x k h1 h2, ← hslice]
        exact (ofFn_getElem?_val slice ⟨k, hk⟩).symm
  · have hle : n ≤ k := Nat.le_of_not_lt hk
    rw [ofFn_getElem?_of_le _ k hle]
    have hlen : (pre ++ x :: p :: post).length = n := by
      have := congrArg List.length hslice
      simpa using this.symm
    exact (List.getElem?_eq_none (by omega)).symm

theorem insertionInner_run {α : Type} {n : Nat} (less : α → α → Bool)
    (next : SlicePlan n) (j : Nat) (hj : j < n) (slice : Fin n → α)
    (pre post : List α) (x : α) (hpre : pre.length = j)
    (hslice : List.ofFn slice = pre ++ x :: post) :
    ∃ slice', List.ofFn slice' = (insertLeft less x pre.reverse).reverse ++ post ∧
      runPlan less (insertionInner n next j hj) slice = runPlan less next slice' := by
  induction j generalizing slice pre post with
  | zero =>
    have hnil : pre = [] := List.eq_nil_of_length_eq_zero hpre
    subst hnil
    exact ⟨slice, by simpa [insertLeft] using hslice, rfl⟩
  | succ j ih =>
    obtain ⟨pre', p, rfl⟩ : ∃ pre' p, pre = pre' ++ [p] := by
      rcases List.eq_nil_or_concat pre with h | ⟨pre', p, h⟩
      · subst h
        cases hpre
      · exact ⟨pre', p, by simpa using h⟩
    have hlen : pre'.length = j := by simpa using hpre
    subst hlen
    have hslice' : List.ofFn slice = pre' ++ p :: x :: post := by simpa using hslice
    obtain ⟨hswap, hx, hp⟩ := ofFn_swap_adjacent slice pre' post p x hj hslice'
    by_cases hless : less x p = true
    · obtain ⟨slice', hs', hrun⟩ := ih (Nat.lt_of_succ_lt hj) _ pre' (p :: post) rfl hswap
      refine ⟨slice', ?_, ?_⟩
      · rw [hs']
        simp [insertLeft, hless]
      · simp only [insertionInner, runPlan, hx, hp, hless, if_true]
        exact hrun
    · refine ⟨slice, ?_, ?_⟩
      · rw [hslice']
        simp [insertLeft, hless]
      · simp only [insertionInner, runPlan, hx, hp, hless]
        rfl

theorem insertLeft_length {α : Type} (less : α → α → Bool) (x : α) (done : List α) :
    (insertLeft less x done).length = done.length + 1 := by
  simpa using (insertLeft_perm less x done).length_eq

theorem insertionOuter_run {α : Type} {n : Nat} (less : α → α → Bool) (passes i : Nat)
    (slice : Fin n → α) (done rest : List α) (hdone : done.length = i)
    (hpasses : rest.length ≤ passes)
    (hslice : List.ofFn slice = done.reverse ++ rest) :
    List.ofFn (runPlan less (insertionOuter n passes i) slice) =
      (insertionLoop less done rest).reverse := by
  have hn : done.length + rest.length = n := by
    have := congrArg List.length hslice
    simpa using this.symm
  induction passes generalizing i slice done rest with
  | zero =>
    have hnil : rest = [] := List.eq_nil_of_length_eq_zero (Nat.le_zero.1 hpasses)
    subst hnil
    simpa [insertionOuter, runPlan, insertionLoop] using hslice
  | succ passes ih =>
    cases rest with
    | nil =>
      have hi : ¬ i < n := by
        simp only [List.length_nil, Nat.add_zero] at hn
        omega
      simp only [insertionOuter, dif_neg hi, runPlan, insertionLoop]
      simpa using hslice
    | cons x rest =>
      have hi : i < n := by
        simp only [List.length_cons] at hn
        omega
      obtain ⟨slice', hs', hrun⟩ := insertionInner_run less
        (insertionOuter n passes (i + 1)) i hi slice done.reverse rest x
        (by simpa using hdone) hslice
      simp only [insertionOuter, dif_pos hi, hrun, insertionLoop]
      rw [List.reverse_reverse] at hs'
      exact ih (i + 1) slice' (insertLeft less x done) rest
        (by rw [insertLeft_length, hdone])
        (by simpa using hpasses) hs'
        (by
          rw [insertLeft_length]
          simp only [List.length_cons] at hn
          omega)

/-- The library run `insertionPlan` computes `sortSlice`: the plan model of `sort.Slice`
contains the insertion sort the other theorems use. -/
theorem sortSliceVia_insertionPlan {α : Type} (less : α → α → Bool) (s : List α) :
    sortSliceVia insertionPlan less s = sortSlice less s := by
  unfold sortSliceVia sortSlice insertionPlan
  cases s with
  | nil => rfl
  | cons x rest =>
    have h := insertionOuter_run less (x :: rest).length 1 (x :: rest).get [x] rest rfl
      (by simp) (by rw [List.ofFn_get]; rfl)
    rw [h]
    rfl

/-- The converter with the library run `insertionPlan` is the converter with
`sortSlice`. -/
theorem makeConvertVia_insertionPlan (reverse : Bool) (data : Reply) :
    MakeConvertMapOfMemberAndScoreVia insertionPlan reverse data =
      MakeConvertMapOfMemberAndScore reverse data := by
  unfold MakeConvertMapOfMemberAndScoreVia MakeConvertMapOfMemberAndScore
  simp only [sortSliceVia_insertionPlan]

end Glide
